import Mathlib

/-!
# Semorket mortgage registry chaincode

A shallow embedding of `finished/semorketnew.go` (the mortgage registry
chaincode) together with the properties checked against it.

Modelling conventions:

* Go `string` and `[]byte` values are sequences of bytes (`Bytes`); a nil
  `[]byte` is `none`.  A Go string literal is written `utf8 "..."`, its bytes.
* The ledger stub is an explicit value that is threaded through every
  operation.  `GetState` and `PutState` may fail, as the shim interface
  allows; which keys fail is part of the stub.
* An `error` is an `Option Err`, `none` being Go's `nil`.
* A Go run-time panic (index out of range) is the `none` of an outer `Option`.
* `encoding/json` is modelled for the two record types the chaincode
  marshals: syntax check of the whole input, then decoding of the top-level
  object into the struct.  Both directions replace a byte that begins no
  well-formed UTF-8 encoding by U+FFFD, as the Go package does.
-/

namespace Semorket

/-! ## Strings and UTF-8 -/

/-- A Go `string` or `[]byte`: a sequence of bytes. -/
abbrev Bytes := List UInt8

/-- Go `utf8.EncodeRune` on a Unicode scalar value. -/
def encodeRune (c : Char) : Bytes :=
  if c.toNat < 0x80 then [UInt8.ofNat c.toNat]
  else if c.toNat < 0x800 then
    [UInt8.ofNat (0xc0 + c.toNat / 64), UInt8.ofNat (0x80 + c.toNat % 64)]
  else if c.toNat < 0x10000 then
    [UInt8.ofNat (0xe0 + c.toNat / 4096), UInt8.ofNat (0x80 + c.toNat / 64 % 64),
      UInt8.ofNat (0x80 + c.toNat % 64)]
  else
    [UInt8.ofNat (0xf0 + c.toNat / 262144), UInt8.ofNat (0x80 + c.toNat / 4096 % 64),
      UInt8.ofNat (0x80 + c.toNat / 64 % 64), UInt8.ofNat (0x80 + c.toNat % 64)]

/-- The UTF-8 encoding of a sequence of characters. -/
def encodeRunes : List Char → Bytes
  | [] => []
  | c :: cs => encodeRune c ++ encodeRunes cs

/-- The bytes of a Go string literal: the UTF-8 encoding of its text. -/
def utf8 (s : String) : Bytes := encodeRunes s.data

/-- The range Go `utf8.DecodeRune` accepts for the second byte after the
first byte `b0` (its table `acceptRanges`). -/
def secondByteOk (b0 b1 : Nat) : Bool :=
  if b0 = 0xe0 then 0xa0 ≤ b1 ∧ b1 ≤ 0xbf
  else if b0 = 0xed then 0x80 ≤ b1 ∧ b1 ≤ 0x9f
  else if b0 = 0xf0 then 0x90 ≤ b1 ∧ b1 ≤ 0xbf
  else if b0 = 0xf4 then 0x80 ≤ b1 ∧ b1 ≤ 0x8f
  else 0x80 ≤ b1 ∧ b1 ≤ 0xbf

/-- A continuation byte. -/
def isCont (b : Nat) : Bool := 0x80 ≤ b ∧ b ≤ 0xbf

/-- Go `utf8.DecodeRune`: the character at the head of the bytes and the
width of its encoding, or `none` with width 1 (Go's `RuneError`) when the
first byte begins no well-formed encoding. -/
def DecodeRune : Bytes → Option Char × Nat
  | [] => (none, 0)
  | b0 :: r0 =>
    if b0.toNat < 0x80 then (some (Char.ofNat b0.toNat), 1)
    else if b0.toNat < 0xc2 ∨ 0xf4 < b0.toNat then (none, 1)
    else
      match r0 with
      | [] => (none, 1)
      | b1 :: r1 =>
        if secondByteOk b0.toNat b1.toNat = false then (none, 1)
        else if b0.toNat < 0xe0 then
          (some (Char.ofNat ((b0.toNat - 0xc0) * 64 + (b1.toNat - 0x80))), 2)
        else
          match r1 with
          | [] => (none, 1)
          | b2 :: r2 =>
            if isCont b2.toNat = false then (none, 1)
            else if b0.toNat < 0xf0 then
              (some (Char.ofNat ((b0.toNat - 0xe0) * 4096 + (b1.toNat - 0x80) * 64 +
                (b2.toNat - 0x80))), 3)
            else
              match r2 with
              | [] => (none, 1)
              | b3 :: _ =>
                if isCont b3.toNat = false then (none, 1)
                else
                  (some (Char.ofNat ((b0.toNat - 0xf0) * 262144 + (b1.toNat - 0x80) * 4096 +
                    (b2.toNat - 0x80) * 64 + (b3.toNat - 0x80))), 4)

/-- The loop `for i < len(s) { c, size := utf8.DecodeRune(s[i:]); i += size }`:
the first argument counts the bytes still to be passed over because they
belong to the character decoded last. -/
def decodeFrom : Nat → Bytes → List (Option Char)
  | _, [] => []
  | skip + 1, _ :: bs => decodeFrom skip bs
  | 0, b :: bs => (DecodeRune (b :: bs)).1 :: decodeFrom ((DecodeRune (b :: bs)).2 - 1) bs

/-- The text of a Go string as a loop of `utf8.DecodeRune` sees it: each step
gives a character, or `none` for a byte that begins no well-formed
encoding. -/
def decodeUnits (data : Bytes) : List (Option Char) := decodeFrom 0 data

/-- The Unicode replacement character U+FFFD. -/
def replacementChar : Char := Char.ofNat 0xfffd

/-- The text `encoding/json` works on: every byte that begins no well-formed
encoding counts as the replacement character. -/
def toValid (data : Bytes) : List Char :=
  (decodeUnits data).map fun u => u.getD replacementChar

/-- The well-formed UTF-8 string `encoding/json` makes of a string when it
reads or writes it: every byte that begins no well-formed encoding is
replaced by the encoding of U+FFFD. -/
def coerce (s : Bytes) : Bytes := utf8 (String.mk (toValid s))

/-- Go `utf8.Valid`: every step of the loop over the bytes finds a
well-formed encoding. -/
def validUTF8 (s : Bytes) : Bool := (decodeUnits s).all Option.isSome

/-! ## encoding/json: reading -/

/-- A decoded JSON text.  Numbers keep no value: no field of the chaincode's
records is numeric, so a number is always a type mismatch. -/
inductive JValue where
  | null
  | bool (b : Bool)
  | number
  | string (s : String)
  | array (elems : List JValue)
  | object (members : List (String × JValue))

/-- White space as the Go scanner defines it. -/
def isSpace (c : Char) : Bool :=
  c = ' ' ∨ c = '\t' ∨ c = '\r' ∨ c = '\n'

/-- Drops leading white space. -/
def skipSpace : List Char → List Char
  | [] => []
  | c :: cs => if isSpace c then skipSpace cs else c :: cs

/-- Value of one hexadecimal digit. -/
def hexVal (c : Char) : Option Nat :=
  if '0' ≤ c ∧ c ≤ '9' then some (c.toNat - 48)
  else if 'a' ≤ c ∧ c ≤ 'f' then some (c.toNat - 87)
  else if 'A' ≤ c ∧ c ≤ 'F' then some (c.toNat - 55)
  else none

/-- Go `getu4` once the leading `\u` has been read: the next four characters
as a hexadecimal number. -/
def getu4 : List Char → Option (Nat × List Char)
  | a :: b :: c :: d :: rest =>
    match hexVal a, hexVal b, hexVal c, hexVal d with
    | some x, some y, some z, some w => some (((x * 16 + y) * 16 + z) * 16 + w, rest)
    | _, _, _, _ => none
  | _ => none

/-- Go `utf16.IsSurrogate`. -/
def isSurrogate (r : Nat) : Bool := 0xd800 ≤ r ∧ r < 0xe000

/-- Go `utf16.DecodeRune`: the code point of a surrogate pair, `none` standing
for the replacement character returned on an invalid pair. -/
def decodeRune (r1 r2 : Nat) : Option Nat :=
  if 0xd800 ≤ r1 ∧ r1 < 0xdc00 ∧ 0xdc00 ≤ r2 ∧ r2 < 0xe000 then
    some ((r1 - 0xd800) * 1024 + (r2 - 0xdc00) + 0x10000)
  else none

/-- The escape `\uXXXX` of Go `unquote`, on the text after `\u`: the decoded
character and the text that follows.  A surrogate followed by a second escape
that completes the pair gives the pair's code point; any other surrogate
gives the replacement character. -/
def unquoteUnicode (rest : List Char) : Option (Option Char × List Char) :=
  match getu4 rest with
  | none => none
  | some (r, rest1) =>
    if isSurrogate r then
      match rest1 with
      | c1 :: c2 :: rest2 =>
        if c1 = '\\' ∧ c2 = 'u' then
          match getu4 rest2 with
          | none => none
          | some (r2, rest3) =>
            match decodeRune r r2 with
            | some d => some (some (Char.ofNat d), rest3)
            | none => some (some replacementChar, rest1)
        else some (some replacementChar, rest1)
      | _ => some (some replacementChar, rest1)
    else some (some (Char.ofNat r), rest1)

/-- An escape of Go `unquote`, on the character `e` after the backslash and
the text after it.  An unknown escape is a syntax error. -/
def unquoteEscape (e : Char) (rest : List Char) : Option (Option Char × List Char) :=
  if e = 'u' then unquoteUnicode rest
  else if e = '"' then some (some '"', rest)
  else if e = '\\' then some (some '\\', rest)
  else if e = '/' then some (some '/', rest)
  else if e = 'b' then some (some (Char.ofNat 8), rest)
  else if e = 'f' then some (some (Char.ofNat 12), rest)
  else if e = 'n' then some (some '\n', rest)
  else if e = 'r' then some (some '\r', rest)
  else if e = 't' then some (some '\t', rest)
  else none

/-- One turn of the loop of Go `unquote`, on the text inside a string
literal: a syntax error (`none`), or the closing quote (no character) or one
decoded character, with the text that follows.  A raw control character is a
syntax error. -/
def unquoteStep : List Char → Option (Option Char × List Char)
  | [] => none
  | c :: cs =>
    if c = '"' then some (none, cs)
    else if c = '\\' then
      match cs with
      | [] => none
      | e :: rest => unquoteEscape e rest
    else if c.toNat < 0x20 then none
    else some (some c, cs)

/-- Go `unquote` on the text after an opening quote: the decoded string and
the text after the closing quote; `none` is a syntax error (a missing closing
quote included).  The first argument bounds the number of turns; the length
of the text is always enough (`unquote_fuel`). -/
def unquote : Nat → List Char → Option (List Char × List Char)
  | 0, _ => none
  | fuel + 1, cs =>
    match unquoteStep cs with
    | none => none
    | some (none, rest) => some ([], rest)
    | some (some c, rest) => (unquote fuel rest).map fun p => (c :: p.1, p.2)

/-- Drops leading decimal digits. -/
def skipDigits : List Char → List Char
  | [] => []
  | c :: cs => if c.isDigit then skipDigits cs else c :: cs

/-- The exponent part of a number, if any. -/
def scanExponent : List Char → Option (List Char)
  | [] => some []
  | c :: cs =>
    if c = 'e' ∨ c = 'E' then
      match cs with
      | [] => none
      | d :: ds =>
        if d = '+' ∨ d = '-' then
          match ds with
          | [] => none
          | x :: xs => if x.isDigit then some (skipDigits xs) else none
        else if d.isDigit then some (skipDigits ds)
        else none
    else some (c :: cs)

/-- The fraction part of a number, if any, then the exponent. -/
def scanFraction : List Char → Option (List Char)
  | [] => some []
  | c :: cs =>
    if c = '.' then
      match cs with
      | [] => none
      | d :: ds => if d.isDigit then scanExponent (skipDigits ds) else none
    else scanExponent (c :: cs)

/-- The digits of a number after its optional sign. -/
def scanDigits : List Char → Option (List Char)
  | [] => none
  | c :: cs =>
    if c = '0' then scanFraction cs
    else if '1' ≤ c ∧ c ≤ '9' then scanFraction (skipDigits cs)
    else none

/-- A JSON number; returns the text after it. -/
def scanNumber : List Char → Option (List Char)
  | [] => none
  | c :: cs => if c = '-' then scanDigits cs else scanDigits (c :: cs)

/-- The text after the literal `lit`, when the text begins with it. -/
def stripLiteral : List Char → List Char → Option (List Char)
  | [], cs => some cs
  | _ :: _, [] => none
  | a :: lit, c :: cs => if a = c then stripLiteral lit cs else none

/-- A JSON value that is not an array or an object: a string, one of the
literals `true`, `false`, `null`, or a number. -/
def parseScalar : List Char → Option (JValue × List Char)
  | [] => none
  | c :: r =>
    if c = '"' then
      (unquote r.length r).map fun p => (JValue.string (String.mk p.1), p.2)
    else if c = 't' then
      (stripLiteral ['r', 'u', 'e'] r).map fun r1 => (JValue.bool true, r1)
    else if c = 'f' then
      (stripLiteral ['a', 'l', 's', 'e'] r).map fun r1 => (JValue.bool false, r1)
    else if c = 'n' then
      (stripLiteral ['u', 'l', 'l'] r).map fun r1 => (JValue.null, r1)
    else (scanNumber (c :: r)).map fun r1 => (JValue.number, r1)

mutual

/-- One JSON value at the head of the text (no leading white space).  The
first argument bounds the depth of the recursion; twice the length of the
text plus one is always enough (`parseValue_fuel`). -/
def parseValue : Nat → List Char → Option (JValue × List Char)
  | 0, _ => none
  | _ + 1, [] => none
  | fuel + 1, c :: r =>
    if c = '{' then
      match skipSpace r with
      | [] => none
      | d :: r1 =>
        if d = '}' then some (JValue.object [], r1)
        else (parseMembers fuel (d :: r1)).map fun p => (JValue.object p.1, p.2)
    else if c = '[' then
      match skipSpace r with
      | [] => none
      | d :: r1 =>
        if d = ']' then some (JValue.array [], r1)
        else (parseElems fuel (d :: r1)).map fun p => (JValue.array p.1, p.2)
    else parseScalar (c :: r)

/-- The elements of an array after the first has been found to exist, up to
and including the closing bracket. -/
def parseElems : Nat → List Char → Option (List JValue × List Char)
  | 0, _ => none
  | fuel + 1, cs =>
    match parseValue fuel cs with
    | none => none
    | some (v, r) =>
      match skipSpace r with
      | [] => none
      | d :: r1 =>
        if d = ',' then (parseElems fuel (skipSpace r1)).map fun p => (v :: p.1, p.2)
        else if d = ']' then some ([v], r1)
        else none

/-- The members of an object, up to and including the closing brace. -/
def parseMembers : Nat → List Char → Option (List (String × JValue) × List Char)
  | 0, _ => none
  | _ + 1, [] => none
  | fuel + 1, q :: r =>
    if q = '"' then
      match unquote r.length r with
      | none => none
      | some (k, r1) =>
        match skipSpace r1 with
        | [] => none
        | d :: r2 =>
          if d = ':' then
            match parseValue fuel (skipSpace r2) with
            | none => none
            | some (v, r3) =>
              match skipSpace r3 with
              | [] => none
              | e :: r4 =>
                if e = ',' then
                  (parseMembers fuel (skipSpace r4)).map fun p => ((String.mk k, v) :: p.1, p.2)
                else if e = '}' then some ([(String.mk k, v)], r4)
                else none
          else none
    else none

end

/-- Go `checkValid` followed by the decoder's scan: the whole text is one JSON
value surrounded by optional white space.  `none` is a `SyntaxError`. -/
def parseJSON (data : String) : Option JValue :=
  let cs := skipSpace data.data
  match parseValue (2 * cs.length + 1) cs with
  | none => none
  | some (v, rest) => if skipSpace rest = [] then some v else none

/-! ## The record types -/

/-- Go `type Mortgage struct`, with JSON tags `mortID`, `lendee`, `owner`. -/
structure Mortgage where
  MortID : Bytes
  Lendee : Bytes
  Owner : Bytes
  deriving DecidableEq, Repr

/-- Go `type MortID_Holder struct`, with JSON tag `mortIDs`.  The slice is
`none` when nil. -/
structure MortID_Holder where
  MortIDs : Option (List Bytes)
  deriving DecidableEq, Repr

/-- The zero value `var m Mortgage`. -/
def Mortgage.zero : Mortgage := ⟨[], [], []⟩

/-- The zero value `var mortIDs MortID_Holder`. -/
def MortID_Holder.zero : MortID_Holder := ⟨none⟩

/-- The elements a `range` over the slice visits. -/
def MortID_Holder.ids (h : MortID_Holder) : List Bytes := h.MortIDs.getD []

/-! ## encoding/json: decoding into the records -/

/-- Case folding of one character of an object key.  Only the characters
that fold onto an ASCII letter are folded (the other case of the letter, the
long s and the Kelvin sign); that decides every comparison with the ASCII
field names used here. -/
def foldRune (c : Char) : Char :=
  if 'a' ≤ c ∧ c ≤ 'z' then Char.ofNat (c.toNat - 32)
  else if c.toNat = 0x17f then 'S'
  else if c.toNat = 0x212a then 'K'
  else c

/-- Go's field lookup: a key selects the field whose name equals it, exactly
or under case folding.  The field names of one record are distinct under
folding, so the choice does not depend on the order of the fields. -/
def equalFold (name key : String) : Bool :=
  name.data.map foldRune = key.data.map foldRune

/-- Storing a JSON value into a `string` field holding `old`: a string is
stored (as the UTF-8 encoding of its decoded text), `null` leaves the field
alone, anything else is an `UnmarshalTypeError` (second component `true`) and
leaves the field alone. -/
def storeString (old : Bytes) : JValue → Bytes × Bool
  | JValue.string s => (utf8 s, false)
  | JValue.null => (old, false)
  | _ => (old, true)

/-- One object member decoded into a `Mortgage`; the flag accumulates a saved
type error.  Unknown keys are skipped. -/
def Mortgage.setMember (acc : Mortgage × Bool) (kv : String × JValue) : Mortgage × Bool :=
  let m := acc.1
  if equalFold "mortID" kv.1 then
    let r := storeString m.MortID kv.2
    ({ m with MortID := r.1 }, acc.2 || r.2)
  else if equalFold "lendee" kv.1 then
    let r := storeString m.Lendee kv.2
    ({ m with Lendee := r.1 }, acc.2 || r.2)
  else if equalFold "owner" kv.1 then
    let r := storeString m.Owner kv.2
    ({ m with Owner := r.1 }, acc.2 || r.2)
  else acc

/-- The text the JSON reader works on.  The Go scanner accepts any byte of
0x20 and above other than the quote and the backslash inside a string
literal, and no byte of 0x80 and above outside one; `unquote` then replaces
every byte of a literal that begins no well-formed encoding by U+FFFD.  Reading
the bytes as characters first, with U+FFFD for each such byte, gives the same
result: inside a literal the replacement is the one `unquote` makes, and
outside a literal U+FFFD is as much a syntax error as the byte. -/
def jsonText (data : Option Bytes) : String := String.mk (toValid (data.getD []))

/-- Go `json.Unmarshal(data, &m)` for a fresh `m : Mortgage`: the record and
whether an error is returned.  A syntax error leaves the record zero; a type
error is reported after the other members have been stored. -/
def Unmarshal_Mortgage (data : Option Bytes) : Mortgage × Bool :=
  match parseJSON (jsonText data) with
  | none => (Mortgage.zero, true)
  | some (JValue.object ms) => ms.foldl Mortgage.setMember (Mortgage.zero, false)
  | some JValue.null => (Mortgage.zero, false)
  | some _ => (Mortgage.zero, true)

/-- Decoding the elements of a JSON array into a `[]string` that already holds
`old`: element `i` is decoded into the existing element when there is one and
into a zero value otherwise (slots between length and capacity are taken to
be zero). -/
def storeElems : List Bytes → List JValue → List Bytes × Bool
  | _, [] => ([], false)
  | old, v :: vs =>
    let r := storeString (old.headD []) v
    let rs := storeElems old.tail vs
    (r.1 :: rs.1, r.2 || rs.2)

/-- Storing a JSON value into the `[]string` field. -/
def storeSlice (old : Option (List Bytes)) : JValue → Option (List Bytes) × Bool
  | JValue.array vs =>
    let r := storeElems (old.getD []) vs
    (some r.1, r.2)
  | JValue.null => (none, false)
  | _ => (old, true)

/-- One object member decoded into a `MortID_Holder`. -/
def MortID_Holder.setMember (acc : MortID_Holder × Bool) (kv : String × JValue) :
    MortID_Holder × Bool :=
  if equalFold "mortIDs" kv.1 then
    let r := storeSlice acc.1.MortIDs kv.2
    (⟨r.1⟩, acc.2 || r.2)
  else acc

/-- Go `json.Unmarshal(data, &mortIDs)` for a fresh `mortIDs : MortID_Holder`. -/
def Unmarshal_MortID_Holder (data : Option Bytes) : MortID_Holder × Bool :=
  match parseJSON (jsonText data) with
  | none => (MortID_Holder.zero, true)
  | some (JValue.object ms) => ms.foldl MortID_Holder.setMember (MortID_Holder.zero, false)
  | some JValue.null => (MortID_Holder.zero, false)
  | some _ => (MortID_Holder.zero, true)

/-! ## encoding/json: writing -/

/-- A lower-case hexadecimal digit. -/
def hexDigit (n : Nat) : Char :=
  if n < 10 then Char.ofNat (48 + n) else Char.ofNat (87 + n)

/-- How `json.Marshal` writes one character of a string (HTML escaping on). -/
def escapeChar (c : Char) : List Char :=
  if c = '"' ∨ c = '\\' then ['\\', c]
  else if c = '\n' then ['\\', 'n']
  else if c = '\r' then ['\\', 'r']
  else if c = '\t' then ['\\', 't']
  else if c.toNat < 0x20 ∨ c = '<' ∨ c = '>' ∨ c = '&' then
    ['\\', 'u', '0', '0', hexDigit (c.toNat / 16), hexDigit (c.toNat % 16)]
  else if c.toNat = 0x2028 then ['\\', 'u', '2', '0', '2', '8']
  else if c.toNat = 0x2029 then ['\\', 'u', '2', '0', '2', '9']
  else [c]

/-- How `json.Marshal` writes one step of its loop over the bytes of a
string: a character as `escapeChar` says, a byte that begins no well-formed
encoding as the escape `\ufffd`. -/
def escapeUnit : Option Char → List Char
  | some c => escapeChar c
  | none => ['\\', 'u', 'f', 'f', 'f', 'd']

/-- The escaped body of a string. -/
def escapeUnits : List (Option Char) → List Char
  | [] => []
  | u :: us => escapeUnit u ++ escapeUnits us

/-- The text of a string as a JSON string literal. -/
def quote (s : Bytes) : String :=
  String.mk ('"' :: (escapeUnits (decodeUnits s) ++ ['"']))

/-- Go `json.Marshal(m)` for a `Mortgage`; it cannot fail.  The bytes are the
UTF-8 encoding of the text written: a character that is written unescaped is
written as the bytes it was decoded from. -/
def Marshal_Mortgage (m : Mortgage) : Bytes :=
  utf8 ("\x7b\"mortID\":" ++ quote m.MortID ++ ",\"lendee\":" ++ quote m.Lendee ++
    ",\"owner\":" ++ quote m.Owner ++ "\x7d")

/-- The elements of a JSON array of strings, comma separated. -/
def quoteAll : List Bytes → String
  | [] => ""
  | [s] => quote s
  | s :: t => quote s ++ "," ++ quoteAll t

/-- Go `json.Marshal(h)` for a `MortID_Holder`; it cannot fail.  A nil slice
is written as `null`. -/
def Marshal_MortID_Holder (h : MortID_Holder) : Bytes :=
  match h.MortIDs with
  | none => utf8 "\x7b\"mortIDs\":null\x7d"
  | some ids => utf8 ("\x7b\"mortIDs\":[" ++ quoteAll ids ++ "]\x7d")

/-! ## The shim stub -/

/-- The part of `shim.ChaincodeStubInterface` the chaincode uses: the ledger
state, which keys make `GetState` and `PutState` return an error, and the
attributes of the invoking certificate (`Except.error` carrying the text of
the error `ReadCertAttribute` returns). -/
structure Stub where
  state : Bytes → Option Bytes
  getFails : Bytes → Bool
  putFails : Bytes → Bool
  attrs : Bytes → Except Bytes Bytes

/-- Go `stub.GetState(key)`: the bytes (nil when the key is absent or the read
failed) and whether an error is returned. -/
def Stub.GetState (stub : Stub) (key : Bytes) : Option Bytes × Bool :=
  if stub.getFails key then (none, true) else (stub.state key, false)

/-- Go `stub.PutState(key, value)`: the stub afterwards and whether an error
is returned.  A failed write changes nothing. -/
def Stub.PutState (stub : Stub) (key value : Bytes) : Stub × Bool :=
  if stub.putFails key then (stub, true)
  else ({ stub with state := fun k => if k = key then some value else stub.state k }, false)

/-- Go `stub.ReadCertAttribute(name)`. -/
def Stub.ReadCertAttribute (stub : Stub) (name : Bytes) : Except Bytes Bytes :=
  stub.attrs name

/-! ## Errors and results -/

/-- An operand of `fmt.Sprintf`. -/
inductive FmtArg where
  | str (s : Bytes)
  | mortgage (m : Mortgage)
  | bool (b : Bool)
  deriving DecidableEq, Repr

/-- A Go `error` built by the chaincode: `errors.New(msg)`, or
`errors.New(fmt.Sprintf(format, args...))` kept unevaluated. -/
inductive Err where
  | New (msg : Bytes)
  | Sprintf (format : Bytes) (args : List FmtArg)
  deriving DecidableEq, Repr

/-- The literal text an error message begins with: the message itself, or the
format string (every format used here has its first verb after that text). -/
def Err.text : Err → Bytes
  | Err.New msg => msg
  | Err.Sprintf format _ => format

/-- The error message begins with `p`. -/
def Err.startsWith (e : Err) (p : Bytes) : Bool :=
  p.isPrefixOf e.text

/-- The `PermissionDenied` error kind: the message begins `Permission Denied.`. -/
def Err.isPermissionDenied (e : Err) : Bool :=
  e.startsWith (utf8 "Permission Denied.")

/-- What a chaincode function leaves behind: the stub, and the Go return
values `([]byte, error)`. -/
structure Ret where
  stub : Stub
  bytes : Option Bytes
  err : Option Err

/-! ## Constants -/

/-- Participant type `AUTHORITY`. -/
def AUTHORITY : Bytes := utf8 "regulator"

/-- Participant type `PRIMARY_LENDER`. -/
def PRIMARY_LENDER : Bytes := utf8 "pl"

/-- Participant type `SECONDARY_LENDER`. -/
def SECONDARY_LENDER : Bytes := utf8 "sl"

/-! ## General functions -/

/-- Go `get_ecert`. -/
def get_ecert (stub : Stub) (name : Bytes) : Ret :=
  let r := stub.GetState name
  if r.2 then ⟨stub, none, some (Err.New (utf8 "Couldn't retrieve ecert for user " ++ name))⟩
  else ⟨stub, r.1, none⟩

/-- Go `add_ecert`.  The test on the write's error is `err == nil`, as in the
source. -/
def add_ecert (stub : Stub) (name ecert : Bytes) : Ret :=
  let r := stub.PutState name ecert
  if r.2 = false then
    ⟨r.1, none, some (Err.New (utf8 "Error storing eCert for user " ++ name ++
      utf8 " identity: " ++ ecert))⟩
  else ⟨r.1, none, none⟩

/-- Go `get_username`. -/
def get_username (stub : Stub) : Bytes × Option Err :=
  match stub.ReadCertAttribute (utf8 "username") with
  | Except.error e =>
    ([], some (Err.New (utf8 "Couldn't get attribute 'username'. Error: " ++ e)))
  | Except.ok username => (username, none)

/-- Go `check_affiliation`. -/
def check_affiliation (stub : Stub) : Bytes × Option Err :=
  match stub.ReadCertAttribute (utf8 "role") with
  | Except.error e => ([], some (Err.New (utf8 "Couldn't get attribute 'role'. Error: " ++ e)))
  | Except.ok affiliation => (affiliation, none)

/-- Go `get_caller_data`: the user name, the affiliation and the error.  The
affiliation is the literal `"pl"`; the call of `check_affiliation` is
commented out in the source. -/
def get_caller_data (stub : Stub) : Bytes × Bytes × Option Err :=
  let r := get_username stub
  let affiliation := utf8 "pl"
  match r.2 with
  | some e => ([], [], some e)
  | none => (r.1, affiliation, none)

/-- Go `retrieve_mortgage`. -/
def retrieve_mortgage (stub : Stub) (mortID : Bytes) : Mortgage × Option Err :=
  let r := stub.GetState mortID
  if r.2 then
    (Mortgage.zero,
      some (Err.New (utf8 "RETRIEVE_MORTGAGE: Error retrieving mortgage with mortID = " ++
        mortID)))
  else
    let u := Unmarshal_Mortgage r.1
    if u.2 then
      (u.1, some (Err.New (utf8 "RETRIEVE_MORTGAGE: Corrupt mortgage record" ++ r.1.getD [])))
    else (u.1, none)

/-- Go `save_changes`: the stub afterwards, the boolean and the error. -/
def save_changes (stub : Stub) (m : Mortgage) : Stub × Bool × Option Err :=
  let bytes := Marshal_Mortgage m
  let r := stub.PutState m.MortID bytes
  if r.2 then (r.1, false, some (Err.New (utf8 "Error storing mortgage record")))
  else (r.1, true, none)

/-! ## Registry operations -/

/-- Go `ping`. -/
def ping (stub : Stub) : Ret := ⟨stub, some (utf8 "Hello, world!"), none⟩

/-- Go `create_mortgage`. -/
def create_mortgage (stub : Stub) (caller caller_affiliation mortID : Bytes) : Ret :=
  let mort_ID := utf8 "\"MortID\":\"" ++ mortID ++ utf8 "\", "
  let lendee := utf8 "\"Lendee\":\"UNDEFINED\", "
  let owner := utf8 "\"Owner\":\"" ++ caller ++ utf8 "\""
  let mortgage_json := utf8 "\x7b" ++ mort_ID ++ lendee ++ owner ++ utf8 "\x7d"
  if mort_ID = utf8 "" then ⟨stub, none, some (Err.New (utf8 "Invalid mortID provided"))⟩
  else
    let u := Unmarshal_Mortgage (some mortgage_json)
    if u.2 then ⟨stub, none, some (Err.New (utf8 "Invalid JSON object"))⟩
    else
      let m := u.1
      let record := (stub.GetState m.MortID).1
      if record ≠ none then ⟨stub, none, some (Err.New (utf8 "Mortgage already exists"))⟩
      else if caller_affiliation ≠ PRIMARY_LENDER then
        ⟨stub, none, some (Err.Sprintf (utf8 "Permission Denied. create_mortgage. %m === %m")
          [FmtArg.str caller_affiliation, FmtArg.str PRIMARY_LENDER])⟩
      else
        let s := save_changes stub m
        if s.2.2 ≠ none then ⟨s.1, none, some (Err.New (utf8 "Error saving changes"))⟩
        else
          let g := s.1.GetState (utf8 "mortIDs")
          if g.2 then ⟨s.1, none, some (Err.New (utf8 "Unable to get mortIDs"))⟩
          else
            let h := Unmarshal_MortID_Holder g.1
            if h.2 then ⟨s.1, none, some (Err.New (utf8 "Corrupt MortID_Holder record"))⟩
            else
              let mortIDs : MortID_Holder := ⟨some (h.1.ids ++ [mortID])⟩
              let bytes := Marshal_MortID_Holder mortIDs
              let w := s.1.PutState (utf8 "mortIDs") bytes
              if w.2 then ⟨w.1, none, some (Err.New (utf8 "Unable to put the state"))⟩
              else ⟨w.1, none, none⟩

/-- Go `pl_to_sl`. -/
def pl_to_sl (stub : Stub) (m : Mortgage) (caller caller_affiliation recipient_name
    recipient_affiliation : Bytes) : Ret :=
  if m.Owner = caller ∧ caller_affiliation = PRIMARY_LENDER ∧
      recipient_affiliation = SECONDARY_LENDER then
    let m1 := { m with Owner := recipient_name }
    let s := save_changes stub m1
    if s.2.2 ≠ none then ⟨s.1, none, some (Err.New (utf8 "Error saving changes"))⟩
    else ⟨s.1, none, none⟩
  else
    ⟨stub, none, some (Err.Sprintf (utf8
      "Permission Denied. authority_to_manufacturer. %m %m === %m, %m === %m, %m === %m, %m === %m, %m === %m")
      [FmtArg.mortgage m, FmtArg.str m.Owner, FmtArg.str caller, FmtArg.str caller_affiliation,
        FmtArg.str PRIMARY_LENDER, FmtArg.str recipient_affiliation, FmtArg.bool false])⟩

/-- Go `get_mortgage_details`. -/
def get_mortgage_details (stub : Stub) (m : Mortgage) (caller _caller_affiliation : Bytes) :
    Ret :=
  let bytes := Marshal_Mortgage m
  if m.Owner = caller then ⟨stub, some bytes, none⟩
  else ⟨stub, none, some (Err.New (utf8 "Permission Denied. get_mortgage_details"))⟩

/-- The `for ... range mortIDs.MortIDs` loop of `get_mortgages`: the
accumulated `result`, or `none` when a retrieval failed and the function
returned inside the loop. -/
def get_mortgages_loop (stub : Stub) (caller caller_affiliation : Bytes) :
    List Bytes → Bytes → Option Bytes
  | [], result => some result
  | mortgage :: rest, result =>
    let r := retrieve_mortgage stub mortgage
    if r.2 ≠ none then none
    else
      let d := get_mortgage_details stub r.1 caller caller_affiliation
      if d.err = none then
        get_mortgages_loop stub caller caller_affiliation rest
          (result ++ d.bytes.getD [] ++ utf8 ",")
      else get_mortgages_loop stub caller caller_affiliation rest result

/-- Go `get_mortgages`. -/
def get_mortgages (stub : Stub) (caller caller_affiliation : Bytes) : Ret :=
  let g := stub.GetState (utf8 "mortIDs")
  if g.2 then ⟨stub, none, some (Err.New (utf8 "Unable to get mortIDs"))⟩
  else
    let h := Unmarshal_MortID_Holder g.1
    if h.2 then ⟨stub, none, some (Err.New (utf8 "Corrupt MortID_Holder"))⟩
    else
      match get_mortgages_loop stub caller caller_affiliation h.1.ids (utf8 "[") with
      | none => ⟨stub, none, some (Err.New (utf8 "Failed to retrieve Mortgage"))⟩
      | some result =>
        if result.length = 1 then ⟨stub, some (utf8 "[]"), none⟩
        else ⟨stub, some (result.dropLast ++ utf8 "]"), none⟩

/-- Go `check_unique_mortgage`. -/
def check_unique_mortgage (stub : Stub) (mortgage _caller _caller_affiliation : Bytes) : Ret :=
  let r := retrieve_mortgage stub mortgage
  if r.2 = none then
    ⟨stub, some (utf8 "false"), some (Err.New (utf8 "mortgage is not unique"))⟩
  else ⟨stub, some (utf8 "true"), none⟩

/-! ## Router functions -/

/-- The `for i := 0; i < len(args); i = i + 2` loop of `Init`; `none` is the
index-out-of-range panic of `args[i+1]`. -/
def Init_loop (stub : Stub) : List Bytes → Option Stub
  | [] => some stub
  | [_] => none
  | name :: ecert :: rest => Init_loop (add_ecert stub name ecert).stub rest

/-- Go `Init`: `none` is a panic.  The result of the write of the holder and
the results of `add_ecert` are not looked at. -/
def Init (stub : Stub) (_function : Bytes) (args : List Bytes) : Option Ret :=
  let MortIDs := MortID_Holder.zero
  let bytes := Marshal_MortID_Holder MortIDs
  let w := stub.PutState (utf8 "MortIDs") bytes
  match Init_loop w.1 args with
  | none => none
  | some stub1 => some ⟨stub1, none, none⟩

/-- Go `Invoke`: `none` is an index-out-of-range panic on `args`. -/
def Invoke (stub : Stub) (function : Bytes) (args : List Bytes) : Option Ret :=
  let c := get_caller_data stub
  if c.2.2 ≠ none then
    some ⟨stub, none, some (Err.New (utf8 "Error retrieving caller information"))⟩
  else
    let caller := c.1
    let caller_affiliation := c.2.1
    if function = utf8 "create_mortgage" then
      match args.get? 0 with
      | none => none
      | some a0 => some (create_mortgage stub caller caller_affiliation a0)
    else if function = utf8 "ping" then some (ping stub)
    else
      match args.get? 1 with
      | none => none
      | some a1 =>
        let r := retrieve_mortgage stub a1
        if r.2 ≠ none then some ⟨stub, none, some (Err.New (utf8 "Error retrieving mortgage"))⟩
        else if function = utf8 "pl_to_sl" then
          match args.get? 0 with
          | none => none
          | some a0 => some (pl_to_sl stub r.1 caller caller_affiliation a0 (utf8 "sl"))
        else
          some ⟨stub, none,
            some (Err.New (utf8 "Function of the name " ++ function ++ utf8 " doesn't exist."))⟩

/-- Go `Query`: `none` is an index-out-of-range panic on `args`. -/
def Query (stub : Stub) (function : Bytes) (args : List Bytes) : Option Ret :=
  let c := get_caller_data stub
  match c.2.2 with
  | some e =>
    some ⟨stub, none,
      some (Err.New (utf8 "QUERY: Error retrieving caller details: " ++ e.text))⟩
  | none =>
    let caller := c.1
    let caller_affiliation := c.2.1
    if function = utf8 "get_mortgage_details" then
      if args.length ≠ 1 then
        some ⟨stub, none, some (Err.New (utf8 "QUERY: Incorrect number of arguments passed"))⟩
      else
        match args.get? 0 with
        | none => none
        | some a0 =>
          let r := retrieve_mortgage stub a0
          match r.2 with
          | some e =>
            some ⟨stub, none,
              some (Err.New (utf8 "QUERY: Error retrieving mortgage " ++ e.text))⟩
          | none => some (get_mortgage_details stub r.1 caller caller_affiliation)
    else if function = utf8 "check_unique_mortgage" then
      match args.get? 0 with
      | none => none
      | some a0 => some (check_unique_mortgage stub a0 caller caller_affiliation)
    else if function = utf8 "get_mortgages" then
      some (get_mortgages stub caller caller_affiliation)
    else if function = utf8 "get_ecert" then
      match args.get? 0 with
      | none => none
      | some a0 => some (get_ecert stub a0)
    else if function = utf8 "ping" then some (ping stub)
    else
      some ⟨stub, none,
        some (Err.New (utf8 "Received unknown function invocation " ++ function))⟩

/-! ## Vocabulary of the statements -/

/-- A character that stands for itself inside a JSON string literal: not a
quote, not a backslash, not a control character. -/
def plainChar (c : Char) : Bool :=
  c ≠ '"' ∧ c ≠ '\\' ∧ 0x20 ≤ c.toNat

/-- A string that a JSON reader returns unchanged when it is put between
quotes as it is: valid UTF-8, every character plain. -/
def plain (s : Bytes) : Bool :=
  (decodeUnits s).all fun u =>
    match u with
    | some c => plainChar c
    | none => false

/-- The text `raw`, followed by a closing quote, is read back as `s`. -/
def Quotes (raw s : List Char) : Prop :=
  s.length ≤ raw.length ∧
    ∀ (fuel : Nat) (rest : List Char), s.length < fuel →
      unquote fuel (raw ++ '"' :: rest) = some (s, rest)

/-- The JSON text `create_mortgage` builds by concatenation (its local
`mortgage_json`). -/
def mortgage_json (caller mortID : Bytes) : Bytes :=
  utf8 "\x7b" ++ (utf8 "\"MortID\":\"" ++ mortID ++ utf8 "\", ") ++
    utf8 "\"Lendee\":\"UNDEFINED\", " ++ (utf8 "\"Owner\":\"" ++ caller ++ utf8 "\"") ++
    utf8 "\x7d"

/-- The characters of `mortgage_json` when caller and id are the given
texts. -/
def mortgage_text (caller mortID : String) : String :=
  "\x7b" ++ ("\"MortID\":\"" ++ mortID ++ "\", ") ++ "\"Lendee\":\"UNDEFINED\", " ++
    ("\"Owner\":\"" ++ caller ++ "\"") ++ "\x7d"

/-! ## Reference stubs -/

/-- A ledger with no entries whose reads and writes all succeed; the invoking
certificate carries the given `username` and `role` attributes. -/
def emptyStub (username role : String) : Stub where
  state := fun _ => none
  getFails := fun _ => false
  putFails := fun _ => false
  attrs := fun a =>
    if a = utf8 "username" then Except.ok (utf8 username)
    else if a = utf8 "role" then Except.ok (utf8 role)
    else Except.error (utf8 "attribute not found")

/-- The ledger `Init` leaves behind when it is run without credentials on the
empty ledger. -/
def initStub (username role : String) : Stub :=
  match Init (emptyStub username role) (utf8 "init") [] with
  | some r => r.stub
  | none => emptyStub username role

/-- A ledger whose only entry is a valid empty index under the key
`"mortIDs"` that `create_mortgage` and `get_mortgages` read. -/
def seededStub (username role : String) : Stub :=
  ((emptyStub username role).PutState (utf8 "mortIDs") (Marshal_MortID_Holder ⟨some []⟩)).1

/-- The records `get_mortgages` shows to `caller`: those of the listed ids, in
order, whose owner is `caller`. -/
def visible (stub : Stub) (caller : Bytes) (ids : List Bytes) : List Mortgage :=
  (ids.map fun id => (retrieve_mortgage stub id).1).filter fun m => m.Owner = caller

/-- A JSON array written the way `get_mortgages` writes it: the items
separated by commas, between brackets. -/
def jsonArray (items : List Bytes) : Bytes :=
  utf8 "[" ++ (utf8 ",").intercalate items ++ utf8 "]"

/-- The items each followed by a comma, as the loop of `get_mortgages`
accumulates them. -/
def trailing : List Bytes → Bytes
  | [] => []
  | x :: xs => x ++ utf8 "," ++ trailing xs

/-! ## UTF-8: decoding the encoding, and encoding what was decoded -/

theorem toNat_ofNat_byte (n : Nat) (h : n < 256) : (UInt8.ofNat n).toNat = n :=
  UInt8.toNat_ofNat_of_lt h

theorem char_range (c : Char) : c.toNat < 0xd800 ∨ (0xdfff < c.toNat ∧ c.toNat < 0x110000) := by
  have hv := c.valid
  simp only [UInt32.isValidChar, Nat.isValidChar] at hv
  exact hv

theorem DecodeRune_two (b0 b1 : UInt8) (tail : Bytes) (h1 : 0xc2 ≤ b0.toNat)
    (h2 : b0.toNat < 0xe0) (h3 : secondByteOk b0.toNat b1.toNat = true) :
    DecodeRune (b0 :: b1 :: tail) =
      (some (Char.ofNat ((b0.toNat - 0xc0) * 64 + (b1.toNat - 0x80))), 2) := by
  have a1 : ¬ b0.toNat < 0x80 := by omega
  have a2 : ¬ (b0.toNat < 0xc2 ∨ 0xf4 < b0.toNat) := by omega
  simp only [DecodeRune, a1, a2, h3, h2, if_false, if_true, Bool.true_eq_false]

theorem DecodeRune_three (b0 b1 b2 : UInt8) (tail : Bytes) (h1 : 0xe0 ≤ b0.toNat)
    (h2 : b0.toNat < 0xf0) (h3 : secondByteOk b0.toNat b1.toNat = true)
    (h4 : isCont b2.toNat = true) :
    DecodeRune (b0 :: b1 :: b2 :: tail) =
      (some (Char.ofNat ((b0.toNat - 0xe0) * 4096 + (b1.toNat - 0x80) * 64 +
        (b2.toNat - 0x80))), 3) := by
  have a1 : ¬ b0.toNat < 0x80 := by omega
  have a2 : ¬ (b0.toNat < 0xc2 ∨ 0xf4 < b0.toNat) := by omega
  have a3 : ¬ b0.toNat < 0xe0 := by omega
  simp only [DecodeRune, a1, a2, a3, h3, h4, h2, if_false, if_true, Bool.true_eq_false]

theorem DecodeRune_four (b0 b1 b2 b3 : UInt8) (tail : Bytes) (h1 : 0xf0 ≤ b0.toNat)
    (h2 : b0.toNat ≤ 0xf4) (h3 : secondByteOk b0.toNat b1.toNat = true)
    (h4 : isCont b2.toNat = true) (h5 : isCont b3.toNat = true) :
    DecodeRune (b0 :: b1 :: b2 :: b3 :: tail) =
      (some (Char.ofNat ((b0.toNat - 0xf0) * 262144 + (b1.toNat - 0x80) * 4096 +
        (b2.toNat - 0x80) * 64 + (b3.toNat - 0x80))), 4) := by
  have a1 : ¬ b0.toNat < 0x80 := by omega
  have a2 : ¬ (b0.toNat < 0xc2 ∨ 0xf4 < b0.toNat) := by omega
  have a3 : ¬ b0.toNat < 0xe0 := by omega
  have a4 : ¬ b0.toNat < 0xf0 := by omega
  simp only [DecodeRune, a1, a2, a3, a4, h3, h4, h5, if_false, if_true, Bool.true_eq_false]

theorem isCont_low (n : Nat) : isCont (0x80 + n % 64) = true := by
  simp only [isCont, decide_eq_true_eq]
  omega

theorem DecodeRune_encodeRune (c : Char) (tail : Bytes) :
    DecodeRune (encodeRune c ++ tail) = (some c, (encodeRune c).length) := by
  have hr := char_range c
  unfold encodeRune
  split_ifs with h1 h2 h3
  · simp only [List.singleton_append, DecodeRune, toNat_ofNat_byte _ (show c.toNat < 256 by omega),
      h1, if_true, List.length_singleton, Char.ofNat_toNat]
  · have e0 := toNat_ofNat_byte (0xc0 + c.toNat / 64) (by omega)
    have e1 := toNat_ofNat_byte (0x80 + c.toNat % 64) (by omega)
    have a3 : secondByteOk (0xc0 + c.toNat / 64) (0x80 + c.toNat % 64) = true := by
      simp only [secondByteOk]
      split_ifs <;> first | omega | (simp only [decide_eq_true_eq]; omega)
    have a5 : (0xc0 + c.toNat / 64 - 0xc0) * 64 + (0x80 + c.toNat % 64 - 0x80) = c.toNat := by
      omega
    rw [List.cons_append, List.cons_append, List.nil_append,
      DecodeRune_two _ _ _ (by rw [e0]; omega) (by rw [e0]; omega) (by rw [e0, e1]; exact a3),
      e0, e1, a5, Char.ofNat_toNat]
    rfl
  · have e0 := toNat_ofNat_byte (0xe0 + c.toNat / 4096) (by omega)
    have e1 := toNat_ofNat_byte (0x80 + c.toNat / 64 % 64) (by omega)
    have e2 := toNat_ofNat_byte (0x80 + c.toNat % 64) (by omega)
    have a3 : secondByteOk (0xe0 + c.toNat / 4096) (0x80 + c.toNat / 64 % 64) = true := by
      simp only [secondByteOk]
      split_ifs <;> first | omega | (simp only [decide_eq_true_eq]; omega)
    have a5 : (0xe0 + c.toNat / 4096 - 0xe0) * 4096 + (0x80 + c.toNat / 64 % 64 - 0x80) * 64 +
        (0x80 + c.toNat % 64 - 0x80) = c.toNat := by
      omega
    rw [List.cons_append, List.cons_append, List.cons_append, List.nil_append,
      DecodeRune_three _ _ _ _ (by rw [e0]; omega) (by rw [e0]; omega)
        (by rw [e0, e1]; exact a3) (by rw [e2]; exact isCont_low _),
      e0, e1, e2, a5, Char.ofNat_toNat]
    rfl
  · have e0 := toNat_ofNat_byte (0xf0 + c.toNat / 262144) (by omega)
    have e1 := toNat_ofNat_byte (0x80 + c.toNat / 4096 % 64) (by omega)
    have e2 := toNat_ofNat_byte (0x80 + c.toNat / 64 % 64) (by omega)
    have e3 := toNat_ofNat_byte (0x80 + c.toNat % 64) (by omega)
    have a3 : secondByteOk (0xf0 + c.toNat / 262144) (0x80 + c.toNat / 4096 % 64) = true := by
      simp only [secondByteOk]
      split_ifs <;> first | omega | (simp only [decide_eq_true_eq]; omega)
    have a5 : (0xf0 + c.toNat / 262144 - 0xf0) * 262144 +
        (0x80 + c.toNat / 4096 % 64 - 0x80) * 4096 + (0x80 + c.toNat / 64 % 64 - 0x80) * 64 +
        (0x80 + c.toNat % 64 - 0x80) = c.toNat := by
      omega
    rw [List.cons_append, List.cons_append, List.cons_append, List.cons_append, List.nil_append,
      DecodeRune_four _ _ _ _ _ (by rw [e0]; omega) (by rw [e0]; omega)
        (by rw [e0, e1]; exact a3) (by rw [e2]; exact isCont_low _)
        (by rw [e3]; exact isCont_low _),
      e0, e1, e2, e3, a5, Char.ofNat_toNat]
    rfl

theorem encodeRune_length_pos (c : Char) : 1 ≤ (encodeRune c).length := by
  unfold encodeRune
  split_ifs <;> simp

theorem decodeFrom_skip (bs tail : Bytes) :
    decodeFrom bs.length (bs ++ tail) = decodeFrom 0 tail := by
  induction bs with
  | nil => rfl
  | cons b bs ih =>
    rw [List.cons_append, List.length_cons, decodeFrom, ih]

theorem decodeUnits_encodeRune (c : Char) (tail : Bytes) :
    decodeUnits (encodeRune c ++ tail) = some c :: decodeUnits tail := by
  have h := DecodeRune_encodeRune c tail
  have hl := encodeRune_length_pos c
  unfold decodeUnits
  cases he : encodeRune c with
  | nil => rw [he] at hl; simp at hl
  | cons b bs =>
    rw [he] at h
    rw [List.cons_append] at h ⊢
    rw [decodeFrom, h]
    simp only [List.length_cons, Nat.add_sub_cancel]
    rw [decodeFrom_skip]

theorem decodeUnits_encodeRunes (cs : List Char) (tail : Bytes) :
    decodeUnits (encodeRunes cs ++ tail) = cs.map some ++ decodeUnits tail := by
  induction cs with
  | nil => rfl
  | cons c cs ih =>
    rw [encodeRunes, List.append_assoc, decodeUnits_encodeRune, ih]
    rfl

theorem toValid_utf8 (s : String) : toValid (utf8 s) = s.data := by
  have h := decodeUnits_encodeRunes s.data []
  rw [List.append_nil] at h
  have e : decodeUnits [] = [] := rfl
  unfold toValid utf8
  rw [h, e, List.append_nil, List.map_map]
  induction s.data with
  | nil => rfl
  | cons c cs ih => rw [List.map_cons, ih]; rfl

theorem utf8_append (a b : String) : utf8 (a ++ b) = utf8 a ++ utf8 b := by
  unfold utf8
  rw [String.data_append]
  induction a.data with
  | nil => rfl
  | cons c cs ih => simp [encodeRunes, ih]

theorem byte_lt (b : UInt8) : b.toNat < 256 := b.val.isLt

theorem ofNat_toNat_byte (b : UInt8) : UInt8.ofNat b.toNat = b := by
  obtain ⟨⟨n, hn⟩⟩ := b
  show UInt8.ofNat n = _
  simp only [UInt8.ofNat, Fin.ofNat]
  congr 1
  apply BitVec.eq_of_toNat_eq
  simp only [BitVec.toNat_ofNat]
  exact Nat.mod_eq_of_lt hn

theorem toNat_ofNat_char (n : Nat) (h : n < 0xd800 ∨ (0xdfff < n ∧ n < 0x110000)) :
    (Char.ofNat n).toNat = n := by
  have hv : n.isValidChar := h
  simp only [Char.ofNat, hv, dite_true, Char.ofNatAux, Char.toNat]
  rfl


theorem secondByteOk_spec {b0 b1 : Nat} (h : secondByteOk b0 b1 = true) :
    0x80 ≤ b1 ∧ b1 ≤ 0xbf ∧ (b0 = 0xe0 → 0xa0 ≤ b1) ∧ (b0 = 0xed → b1 ≤ 0x9f) ∧
      (b0 = 0xf0 → 0x90 ≤ b1) ∧ (b0 = 0xf4 → b1 ≤ 0x8f) := by
  unfold secondByteOk at h
  split_ifs at h <;> simp only [decide_eq_true_eq] at h <;> omega

theorem isCont_spec {b : Nat} (h : isCont b = true) : 0x80 ≤ b ∧ b ≤ 0xbf := by
  simpa [isCont] using h

theorem encodeRune_one (n : Nat) (h : n < 0x80) :
    encodeRune (Char.ofNat n) = [UInt8.ofNat n] := by
  have e := toNat_ofNat_char n (by omega)
  simp only [encodeRune, e, h, if_true]

theorem encodeRune_two (n : Nat) (h1 : 0x80 ≤ n) (h2 : n < 0x800) :
    encodeRune (Char.ofNat n) = [UInt8.ofNat (0xc0 + n / 64), UInt8.ofNat (0x80 + n % 64)] := by
  have e := toNat_ofNat_char n (by omega)
  have a1 : ¬ n < 0x80 := by omega
  simp only [encodeRune, e, a1, h2, if_true, if_false]

theorem encodeRune_three (n : Nat) (h1 : 0x800 ≤ n) (h2 : n < 0x10000)
    (h3 : n < 0xd800 ∨ 0xdfff < n) :
    encodeRune (Char.ofNat n) =
      [UInt8.ofNat (0xe0 + n / 4096), UInt8.ofNat (0x80 + n / 64 % 64),
        UInt8.ofNat (0x80 + n % 64)] := by
  have e := toNat_ofNat_char n (by omega)
  have a1 : ¬ n < 0x80 := by omega
  have a2 : ¬ n < 0x800 := by omega
  simp only [encodeRune, e, a1, a2, h2, if_true, if_false]

theorem encodeRune_four (n : Nat) (h1 : 0x10000 ≤ n) (h2 : n < 0x110000) :
    encodeRune (Char.ofNat n) =
      [UInt8.ofNat (0xf0 + n / 262144), UInt8.ofNat (0x80 + n / 4096 % 64),
        UInt8.ofNat (0x80 + n / 64 % 64), UInt8.ofNat (0x80 + n % 64)] := by
  have e := toNat_ofNat_char n (by omega)
  have a1 : ¬ n < 0x80 := by omega
  have a2 : ¬ n < 0x800 := by omega
  have a3 : ¬ n < 0x10000 := by omega
  simp only [encodeRune, e, a1, a2, a3, if_false]

theorem byte_eq (b : UInt8) (n : Nat) (h : n = b.toNat) : UInt8.ofNat n = b := by
  rw [h]
  exact ofNat_toNat_byte b

/-- A character found by `DecodeRune` is followed by the rest of the bytes:
the bytes decoded are the encoding of the character. -/
theorem DecodeRune_some {s : Bytes} {c : Char} {w : Nat} (h : DecodeRune s = (some c, w)) :
    ∃ rest, s = encodeRune c ++ rest := by
  match s, h with
  | b0 :: r0, h =>
    by_cases h1 : b0.toNat < 0x80
    · simp only [DecodeRune, h1, if_true, Prod.mk.injEq, Option.some.injEq] at h
      refine ⟨r0, ?_⟩
      rw [← h.1, encodeRune_one _ h1, ofNat_toNat_byte]
      rfl
    by_cases h2 : b0.toNat < 0xc2 ∨ 0xf4 < b0.toNat
    · simp [DecodeRune, h1, h2] at h
    match r0, h with
    | [], h => simp [DecodeRune, h1, h2] at h
    | b1 :: r1, h =>
      by_cases h3 : secondByteOk b0.toNat b1.toNat = true
      swap
      · simp [DecodeRune, h1, h2, h3] at h
      have s3 := secondByteOk_spec h3
      by_cases h4 : b0.toNat < 0xe0
      · rw [DecodeRune_two b0 b1 r1 (by omega) h4 h3] at h
        simp only [Prod.mk.injEq, Option.some.injEq] at h
        refine ⟨r1, ?_⟩
        rw [← h.1, encodeRune_two _ (by omega) (by omega),
          byte_eq b0 _ (by omega), byte_eq b1 _ (by omega)]
        rfl
      match r1, h with
      | [], h => simp [DecodeRune, h1, h2, h3, h4] at h
      | b2 :: r2, h =>
        by_cases h5 : isCont b2.toNat = true
        swap
        · simp [DecodeRune, h1, h2, h3, h4, h5] at h
        have s5 := isCont_spec h5
        by_cases h6 : b0.toNat < 0xf0
        · rw [DecodeRune_three b0 b1 b2 r2 (by omega) h6 h3 h5] at h
          simp only [Prod.mk.injEq, Option.some.injEq] at h
          refine ⟨r2, ?_⟩
          rw [← h.1, encodeRune_three _ (by omega) (by omega) (by omega),
            byte_eq b0 _ (by omega), byte_eq b1 _ (by omega), byte_eq b2 _ (by omega)]
          rfl
        match r2, h with
        | [], h => simp [DecodeRune, h1, h2, h3, h4, h5, h6] at h
        | b3 :: r3, h =>
          by_cases h7 : isCont b3.toNat = true
          swap
          · simp [DecodeRune, h1, h2, h3, h4, h5, h6, h7] at h
          have s7 := isCont_spec h7
          rw [DecodeRune_four b0 b1 b2 b3 r3 (by omega) (by omega) h3 h5 h7] at h
          simp only [Prod.mk.injEq, Option.some.injEq] at h
          refine ⟨r3, ?_⟩
          rw [← h.1, encodeRune_four _ (by omega) (by omega),
            byte_eq b0 _ (by omega), byte_eq b1 _ (by omega), byte_eq b2 _ (by omega),
            byte_eq b3 _ (by omega)]
          rfl

theorem decodeUnits_cons_some {b : UInt8} {bs : Bytes} {c : Char}
    (h : (DecodeRune (b :: bs)).1 = some c) :
    ∃ rest, b :: bs = encodeRune c ++ rest ∧ decodeUnits (b :: bs) = some c :: decodeUnits rest :=
        by
  obtain ⟨rest, hr⟩ := DecodeRune_some (show DecodeRune (b :: bs) =
      (some c, (DecodeRune (b :: bs)).2)
    from Prod.ext h rfl)
  exact ⟨rest, hr, by rw [hr, decodeUnits_encodeRune]⟩

theorem decodeUnits_cons (b : UInt8) (bs : Bytes) :
    ∃ tail, decodeUnits (b :: bs) = (DecodeRune (b :: bs)).1 :: tail :=
  ⟨_, rfl⟩

theorem encodeRunes_toValid (n : Nat) : ∀ s : Bytes, s.length ≤ n → validUTF8 s = true →
    encodeRunes (toValid s) = s := by
  induction n with
  | zero =>
    intro s hl _
    have : s = [] := List.length_eq_zero.mp (Nat.le_zero.mp hl)
    subst this
    rfl
  | succ n ih =>
    intro s hl hv
    cases s with
    | nil => rfl
    | cons b bs =>
      obtain ⟨tail, ht⟩ := decodeUnits_cons b bs
      have hsome : ((DecodeRune (b :: bs)).1).isSome = true := by
        unfold validUTF8 at hv
        rw [ht, List.all_cons, Bool.and_eq_true] at hv
        exact hv.1
      obtain ⟨c, hc⟩ := Option.isSome_iff_exists.mp hsome
      obtain ⟨rest, hr, hd⟩ := decodeUnits_cons_some hc
      have hlen : rest.length ≤ n := by
        have h1 := encodeRune_length_pos c
        have h2 := congrArg List.length hr
        simp only [List.length_cons, List.length_append] at h2 hl
        omega
      have hvr : validUTF8 rest = true := by
        unfold validUTF8 at hv ⊢
        rw [hd, List.all_cons, Bool.and_eq_true] at hv
        exact hv.2
      have e : toValid (b :: bs) = c :: toValid rest := by
        unfold toValid
        rw [hd]
        rfl
      rw [e, encodeRunes, ih rest hlen hvr, ← hr]

/-- A valid UTF-8 string is left as it is by the replacement of ill-formed
bytes. -/
theorem coerce_valid {s : Bytes} (h : validUTF8 s = true) : coerce s = s :=
  encodeRunes_toValid s.length s (le_refl _) h

theorem validUTF8_utf8 (s : String) : validUTF8 (utf8 s) = true := by
  have h := decodeUnits_encodeRunes s.data []
  have e : decodeUnits [] = [] := rfl
  rw [List.append_nil, e, List.append_nil] at h
  unfold validUTF8 utf8
  rw [h]
  simp

theorem plain_units (l : List (Option Char))
    (h : (l.all fun u => match u with
      | some c => plainChar c
      | none => false) = true) :
    l.all Option.isSome = true ∧
      (l.map fun u => u.getD replacementChar).all plainChar = true := by
  induction l with
  | nil => exact ⟨rfl, rfl⟩
  | cons u us ih =>
    rw [List.all_cons, Bool.and_eq_true] at h
    obtain ⟨i1, i2⟩ := ih h.2
    cases u with
    | none => exact absurd h.1 (by simp)
    | some c =>
      refine ⟨?_, ?_⟩
      · rw [List.all_cons, i1]; rfl
      · rw [List.map_cons, List.all_cons, i2, Bool.and_true]
        exact h.1

theorem plain_valid {s : Bytes} (h : plain s = true) : validUTF8 s = true :=
  (plain_units _ h).1

theorem plain_toValid {s : Bytes} (h : plain s = true) : (toValid s).all plainChar = true :=
  (plain_units _ h).2

/-- A plain string is the encoding of a text whose characters are plain. -/
theorem plain_text {s : Bytes} (h : plain s = true) :
    ∃ t : String, s = utf8 t ∧ t.data.all plainChar = true :=
  ⟨String.mk (toValid s), (coerce_valid (plain_valid h)).symm, plain_toValid h⟩

/-! ## The JSON reader on the writer's output -/

theorem hexVal_hexDigit (k : Nat) (h : k < 16) : hexVal (hexDigit k) = some k := by
  interval_cases k <;> decide

theorem getu4_byte (n : Nat) (h : n < 256) (tail : List Char) :
    getu4 ('0' :: '0' :: hexDigit (n / 16) :: hexDigit (n % 16) :: tail) = some (n, tail) := by
  have h1 : hexVal (hexDigit (n / 16)) = some (n / 16) := hexVal_hexDigit _ (by omega)
  have h2 : hexVal (hexDigit (n % 16)) = some (n % 16) := hexVal_hexDigit _ (by omega)
  have h0 : hexVal '0' = some 0 := by decide
  simp only [getu4, h0, h1, h2]
  simp
  omega

theorem char_eq_of_toNat (c : Char) (n : Nat) (h : c.toNat = n) : Char.ofNat n = c := by
  subst h
  exact Char.ofNat_toNat c

theorem unquoteStep_unicode (n : Nat) (c : Char) (hc : c.toNat = n) (cs tail : List Char)
    (hg : getu4 cs = some (n, tail)) :
    unquoteStep ('\\' :: 'u' :: cs) = some (some c, tail) := by
  have hs : isSurrogate n = false := by
    have hv := c.valid
    simp only [UInt32.isValidChar, Nat.isValidChar] at hv
    have hn : c.val.toNat = n := hc
    simp only [isSurrogate, decide_eq_false_iff_not]
    omega
  simp [unquoteStep, unquoteEscape, unquoteUnicode, hg, hs, char_eq_of_toNat c n hc]

theorem unquoteStep_escapeChar (c : Char) (tail : List Char) :
    unquoteStep (escapeChar c ++ tail) = some (some c, tail) := by
  unfold escapeChar
  split_ifs with h1 h2 h3 h4 h5 h6 h7
  · rcases h1 with h | h <;> subst h <;> simp [unquoteStep, unquoteEscape]
  · subst h2; simp [unquoteStep, unquoteEscape]
  · subst h3; simp [unquoteStep, unquoteEscape]
  · subst h4; simp [unquoteStep, unquoteEscape]
  · have hlt : c.toNat < 256 := by
      rcases h5 with h | h | h | h
      · omega
      · subst h; decide
      · subst h; decide
      · subst h; decide
    exact unquoteStep_unicode c.toNat c rfl _ tail (getu4_byte _ hlt tail)
  · exact unquoteStep_unicode 0x2028 c h6 _ tail (by
      have h2 : hexVal '2' = some 2 := by decide
      have h0 : hexVal '0' = some 0 := by decide
      have h8 : hexVal '8' = some 8 := by decide
      simp [getu4, h2, h0, h8])
  · exact unquoteStep_unicode 0x2029 c h7 _ tail (by
      have h2 : hexVal '2' = some 2 := by decide
      have h0 : hexVal '0' = some 0 := by decide
      have h9 : hexVal '9' = some 9 := by decide
      simp [getu4, h2, h0, h9])
  · have h1a : c ≠ '"' := fun h => h1 (Or.inl h)
    have h1b : c ≠ '\\' := fun h => h1 (Or.inr h)
    have h5a : ¬ c.toNat < 32 := fun h => h5 (Or.inl h)
    simp [unquoteStep, h1a, h1b, h5a]

theorem unquoteStep_plainChar (c : Char) (tail : List Char) (h : plainChar c = true) :
    unquoteStep (c :: tail) = some (some c, tail) := by
  simp only [plainChar, decide_eq_true_eq] at h
  have h3 : ¬ c.toNat < 32 := by omega
  simp [unquoteStep, h.1, h.2.1, h3]

theorem unquote_quote (fuel : Nat) (rest : List Char) :
    unquote (fuel + 1) ('"' :: rest) = some ([], rest) := by
  simp [unquote, unquoteStep]

theorem unquote_escapeChar (c : Char) (fuel : Nat) (tail : List Char) :
    unquote (fuel + 1) (escapeChar c ++ tail) =
      (unquote fuel tail).map fun p => (c :: p.1, p.2) := by
  rw [unquote, unquoteStep_escapeChar]

theorem escapeChar_length_pos (c : Char) : 1 ≤ (escapeChar c).length := by
  unfold escapeChar
  split_ifs <;> simp

theorem unquoteStep_escapeUnit (u : Option Char) (tail : List Char) :
    unquoteStep (escapeUnit u ++ tail) = some (some (u.getD replacementChar), tail) := by
  cases u with
  | some c => exact unquoteStep_escapeChar c tail
  | none =>
    exact unquoteStep_unicode 0xfffd replacementChar (by decide) _ tail (by
      have hf : hexVal 'f' = some 15 := by decide
      have hd : hexVal 'd' = some 13 := by decide
      simp [getu4, hf, hd])

theorem unquote_escapeUnit (u : Option Char) (fuel : Nat) (tail : List Char) :
    unquote (fuel + 1) (escapeUnit u ++ tail) =
      (unquote fuel tail).map fun p => (u.getD replacementChar :: p.1, p.2) := by
  rw [unquote, unquoteStep_escapeUnit]

theorem escapeUnit_length_pos (u : Option Char) : 1 ≤ (escapeUnit u).length := by
  cases u with
  | some c => exact escapeChar_length_pos c
  | none => simp [escapeUnit]

theorem quotes_escapeUnits (us : List (Option Char)) :
    Quotes (escapeUnits us) (us.map fun u => u.getD replacementChar) := by
  induction us with
  | nil =>
    refine ⟨by simp [escapeUnits], ?_⟩
    intro fuel rest hf
    obtain ⟨f, rfl⟩ : ∃ f, fuel = f + 1 := ⟨fuel - 1, by simp at hf; omega⟩
    simp [escapeUnits, unquote_quote]
  | cons u us ih =>
    refine ⟨?_, ?_⟩
    · have := escapeUnit_length_pos u
      have := ih.1
      simp only [escapeUnits, List.length_append, List.length_cons, List.map_cons]
      omega
    · intro fuel rest hf
      obtain ⟨f, rfl⟩ : ∃ f, fuel = f + 1 := ⟨fuel - 1, by simp at hf; omega⟩
      have hcs := ih.2 f rest (by simpa using hf)
      simp only [escapeUnits, List.append_assoc, List.map_cons]
      rw [unquote_escapeUnit, hcs]
      rfl

/-- The body `json.Marshal` writes for a string reads back as the string with
each ill-formed byte replaced by U+FFFD. -/
theorem quotes_quote (s : Bytes) : Quotes (escapeUnits (decodeUnits s)) (toValid s) :=
  quotes_escapeUnits _

theorem quotes_plain (s : List Char) (h : s.all plainChar = true) : Quotes s s := by
  induction s with
  | nil =>
    refine ⟨le_refl _, ?_⟩
    intro fuel rest hf
    obtain ⟨f, rfl⟩ : ∃ f, fuel = f + 1 := ⟨fuel - 1, by simp at hf; omega⟩
    simp [unquote_quote]
  | cons c cs ih =>
    refine ⟨le_refl _, ?_⟩
    intro fuel rest hf
    obtain ⟨f, rfl⟩ : ∃ f, fuel = f + 1 := ⟨fuel - 1, by simp at hf; omega⟩
    simp only [List.all_cons, Bool.and_eq_true] at h
    have hcs := (ih h.2).2 f rest (by simpa using hf)
    rw [List.cons_append, unquote, unquoteStep_plainChar c _ h.1]
    simp only [hcs]
    rfl

theorem unquote_full {raw s : List Char} (h : Quotes raw s) (rest : List Char) :
    unquote (raw ++ '"' :: rest).length (raw ++ '"' :: rest) = some (s, rest) :=
  h.2 _ rest (by have := h.1; simp only [List.length_append, List.length_cons]; omega)

theorem skipSpace_cons (c : Char) (cs : List Char) (h : isSpace c = false) :
    skipSpace (c :: cs) = c :: cs := by
  simp [skipSpace, h]

theorem parseValue_quote (f : Nat) (r : List Char) :
    parseValue (f + 1) ('"' :: r) =
      (unquote r.length r).map fun p => (JValue.string (String.mk p.1), p.2) := by
  rfl

theorem parseValue_brace (f : Nat) (r : List Char) :
    parseValue (f + 1) ('{' :: '"' :: r) =
      (parseMembers f ('"' :: r)).map fun p => (JValue.object p.1, p.2) := by
  rfl

theorem parseMembers_quote (f : Nat) (r : List Char) :
    parseMembers (f + 1) ('"' :: r) =
      match unquote r.length r with
      | none => none
      | some (k, r1) =>
        match skipSpace r1 with
        | [] => none
        | d :: r2 =>
          if d = ':' then
            match parseValue f (skipSpace r2) with
            | none => none
            | some (v, r3) =>
              match skipSpace r3 with
              | [] => none
              | e :: r4 =>
                if e = ',' then
                  (parseMembers f (skipSpace r4)).map fun p => ((String.mk k, v) :: p.1, p.2)
                else if e = '}' then some ([(String.mk k, v)], r4)
                else none
          else none := by
  rfl

theorem parseValue_string {raw s : List Char} (h : Quotes raw s) (f : Nat) (rest : List Char) :
    parseValue (f + 1) ('"' :: (raw ++ '"' :: rest)) = some (JValue.string (String.mk s), rest) :=
        by
  rw [parseValue_quote, unquote_full h rest]
  rfl

theorem parseMembers_last {kraw k vraw v : List Char} (hk : Quotes kraw k) (hv : Quotes vraw v)
    (f : Nat) (rest : List Char) :
    parseMembers (f + 2) ('"' :: (kraw ++ '"' :: ':' :: '"' :: (vraw ++ '"' :: '}' :: rest))) =
      some ([(String.mk k, JValue.string (String.mk v))], rest) := by
  have h1 : skipSpace (':' :: '"' :: (vraw ++ '"' :: '}' :: rest)) =
      ':' :: '"' :: (vraw ++ '"' :: '}' :: rest) := skipSpace_cons _ _ (by decide)
  have h2 : skipSpace ('"' :: (vraw ++ '"' :: '}' :: rest)) =
      '"' :: (vraw ++ '"' :: '}' :: rest) := skipSpace_cons _ _ (by decide)
  have h3 : skipSpace ('}' :: rest) = '}' :: rest := skipSpace_cons _ _ (by decide)
  rw [parseMembers_quote, unquote_full hk]
  simp only [h1, h2, parseValue_string hv, h3]
  simp

theorem parseMembers_more {kraw k vraw v : List Char} (hk : Quotes kraw k) (hv : Quotes vraw v)
    (f : Nat) (rest : List Char) :
    parseMembers (f + 2) ('"' :: (kraw ++ '"' :: ':' :: '"' :: (vraw ++ '"' :: ',' :: rest))) =
      (parseMembers (f + 1) (skipSpace rest)).map fun p =>
        ((String.mk k, JValue.string (String.mk v)) :: p.1, p.2) := by
  have h1 : skipSpace (':' :: '"' :: (vraw ++ '"' :: ',' :: rest)) =
      ':' :: '"' :: (vraw ++ '"' :: ',' :: rest) := skipSpace_cons _ _ (by decide)
  have h2 : skipSpace ('"' :: (vraw ++ '"' :: ',' :: rest)) =
      '"' :: (vraw ++ '"' :: ',' :: rest) := skipSpace_cons _ _ (by decide)
  have h3 : skipSpace (',' :: rest) = ',' :: rest := skipSpace_cons _ _ (by decide)
  rw [parseMembers_quote, unquote_full hk]
  simp only [h1, h2, parseValue_string hv, h3]
  simp

theorem parseJSON_eq {data : String} {c : Char} {cs : List Char} (hd : data.data = c :: cs)
    (hc : isSpace c = false) {v : JValue} {k : Nat} (hk : k ≤ 2 * (c :: cs).length + 1)
    (hp : ∀ f, parseValue (f + k) (c :: cs) = some (v, [])) : parseJSON data = some v := by
  obtain ⟨f, hf⟩ : ∃ f, 2 * (c :: cs).length + 1 = f + k := ⟨2 * (c :: cs).length + 1 - k, by omega⟩
  have h := hp f
  rw [← hf] at h
  simp only [parseJSON, hd, skipSpace_cons _ _ hc, h]
  rfl

theorem jsonText_utf8 (s : String) : jsonText (some (utf8 s)) = s := by
  unfold jsonText
  rw [Option.getD_some, toValid_utf8]

theorem Marshal_Mortgage_data (m : Mortgage) :
    (jsonText (some (Marshal_Mortgage m))).data =
      '{' :: '"' :: (['m', 'o', 'r', 't', 'I', 'D'] ++ '"' :: ':' :: '"' ::
        (escapeUnits (decodeUnits m.MortID) ++ '"' :: ',' :: '"' ::
          (['l', 'e', 'n', 'd', 'e', 'e'] ++ '"' :: ':' :: '"' ::
            (escapeUnits (decodeUnits m.Lendee) ++ '"' :: ',' :: '"' ::
              (['o', 'w', 'n', 'e', 'r'] ++ '"' :: ':' :: '"' ::
                (escapeUnits (decodeUnits m.Owner) ++ '"' :: '}' :: [])))))) := by
  rw [Marshal_Mortgage, jsonText_utf8]
  simp [quote, String.data_append]

theorem parseJSON_Marshal_Mortgage (m : Mortgage) :
    parseJSON (jsonText (some (Marshal_Mortgage m))) =
      some (JValue.object [("mortID", JValue.string (String.mk (toValid m.MortID))),
        ("lendee", JValue.string (String.mk (toValid m.Lendee))),
        ("owner", JValue.string (String.mk (toValid m.Owner)))]) := by
  have hM : Quotes ['m', 'o', 'r', 't', 'I', 'D'] ['m', 'o', 'r', 't', 'I', 'D'] :=
    quotes_plain _ (by decide)
  have hL : Quotes ['l', 'e', 'n', 'd', 'e', 'e'] ['l', 'e', 'n', 'd', 'e', 'e'] :=
    quotes_plain _ (by decide)
  have hO : Quotes ['o', 'w', 'n', 'e', 'r'] ['o', 'w', 'n', 'e', 'r'] :=
    quotes_plain _ (by decide)
  refine parseJSON_eq (k := 5) (Marshal_Mortgage_data m) (by decide)
    (by simp only [List.length_cons]; omega) ?_
  intro f
  rw [parseValue_brace, parseMembers_more hM (quotes_quote _),
    skipSpace_cons _ _ (by decide), parseMembers_more hL (quotes_quote _),
    skipSpace_cons _ _ (by decide), parseMembers_last hO (quotes_quote _)]
  rfl

/-- Reading what `json.Marshal` wrote for a record gives the record with each
string made well-formed UTF-8. -/
theorem Unmarshal_Marshal_Mortgage_coerce (m : Mortgage) :
    Unmarshal_Mortgage (some (Marshal_Mortgage m)) =
      (⟨coerce m.MortID, coerce m.Lendee, coerce m.Owner⟩, false) := by
  unfold Unmarshal_Mortgage
  rw [parseJSON_Marshal_Mortgage]
  have e1 : equalFold "mortID" "mortID" = true := by decide
  have e2 : equalFold "mortID" "lendee" = false := by decide
  have e3 : equalFold "lendee" "lendee" = true := by decide
  have e4 : equalFold "mortID" "owner" = false := by decide
  have e5 : equalFold "lendee" "owner" = false := by decide
  have e6 : equalFold "owner" "owner" = true := by decide
  simp [Mortgage.setMember, storeString, Mortgage.zero, e1, e2, e3, e4, e5, e6, coerce]

theorem Unmarshal_Marshal_Mortgage (m : Mortgage) (h1 : validUTF8 m.MortID = true)
    (h2 : validUTF8 m.Lendee = true) (h3 : validUTF8 m.Owner = true) :
    Unmarshal_Mortgage (some (Marshal_Mortgage m)) = (m, false) := by
  rw [Unmarshal_Marshal_Mortgage_coerce, coerce_valid h1, coerce_valid h2, coerce_valid h3]

theorem mortgage_text_data (caller mortID : String) :
    (mortgage_text caller mortID).data =
      '{' :: '"' :: (['M', 'o', 'r', 't', 'I', 'D'] ++ '"' :: ':' :: '"' ::
        (mortID.data ++ '"' :: ',' :: ' ' :: '"' ::
          (['L', 'e', 'n', 'd', 'e', 'e'] ++ '"' :: ':' :: '"' ::
            (['U', 'N', 'D', 'E', 'F', 'I', 'N', 'E', 'D'] ++ '"' :: ',' :: ' ' :: '"' ::
              (['O', 'w', 'n', 'e', 'r'] ++ '"' :: ':' :: '"' ::
                (caller.data ++ '"' :: '}' :: [])))))) := by
  simp [mortgage_text, String.data_append]

theorem skipSpace_space_quote (cs : List Char) : skipSpace (' ' :: '"' :: cs) = '"' :: cs := by
  have h : isSpace ' ' = true := by decide
  rw [skipSpace, if_pos h, skipSpace_cons _ _ (by decide)]

theorem parseJSON_mortgage_text (caller mortID : String)
    (hc : caller.data.all plainChar = true) (hm : mortID.data.all plainChar = true) :
    parseJSON (mortgage_text caller mortID) =
      some (JValue.object [("MortID", JValue.string mortID), ("Lendee", JValue.string "UNDEFINED"),
        ("Owner", JValue.string caller)]) := by
  have hM : Quotes ['M', 'o', 'r', 't', 'I', 'D'] ['M', 'o', 'r', 't', 'I', 'D'] :=
    quotes_plain _ (by decide)
  have hL : Quotes ['L', 'e', 'n', 'd', 'e', 'e'] ['L', 'e', 'n', 'd', 'e', 'e'] :=
    quotes_plain _ (by decide)
  have hO : Quotes ['O', 'w', 'n', 'e', 'r'] ['O', 'w', 'n', 'e', 'r'] :=
    quotes_plain _ (by decide)
  have hU : Quotes ['U', 'N', 'D', 'E', 'F', 'I', 'N', 'E', 'D']
      ['U', 'N', 'D', 'E', 'F', 'I', 'N', 'E', 'D'] := quotes_plain _ (by decide)
  refine parseJSON_eq (k := 5) (mortgage_text_data caller mortID) (by decide)
    (by simp only [List.length_cons]; omega) ?_
  intro f
  rw [parseValue_brace, parseMembers_more hM (quotes_plain _ hm),
    skipSpace_space_quote, parseMembers_more hL hU,
    skipSpace_space_quote, parseMembers_last hO (quotes_plain _ hc)]
  rfl

theorem mortgage_json_utf8 (caller mortID : String) :
    mortgage_json (utf8 caller) (utf8 mortID) = utf8 (mortgage_text caller mortID) := by
  simp only [mortgage_json, mortgage_text, utf8_append]

theorem Unmarshal_mortgage_json (caller mortID : Bytes) (hc : plain caller = true)
    (hm : plain mortID = true) :
    Unmarshal_Mortgage (some (mortgage_json caller mortID)) =
      (⟨mortID, utf8 "UNDEFINED", caller⟩, false) := by
  obtain ⟨c, rfl, hc1⟩ := plain_text hc
  obtain ⟨i, rfl, hi1⟩ := plain_text hm
  unfold Unmarshal_Mortgage
  rw [mortgage_json_utf8, jsonText_utf8, parseJSON_mortgage_text c i hc1 hi1]
  have e1 : equalFold "mortID" "MortID" = true := by decide
  have e2 : equalFold "mortID" "Lendee" = false := by decide
  have e3 : equalFold "lendee" "Lendee" = true := by decide
  have e4 : equalFold "mortID" "Owner" = false := by decide
  have e5 : equalFold "lendee" "Owner" = false := by decide
  have e6 : equalFold "owner" "Owner" = true := by decide
  simp [Mortgage.setMember, storeString, Mortgage.zero, e1, e2, e3, e4, e5, e6]

theorem create_mortgage_eq (stub : Stub) (caller caller_affiliation mortID : Bytes) :
    create_mortgage stub caller caller_affiliation mortID =
      let u := Unmarshal_Mortgage (some (mortgage_json caller mortID))
      if u.2 then ⟨stub, none, some (Err.New (utf8 "Invalid JSON object"))⟩
      else
        let m := u.1
        let record := (stub.GetState m.MortID).1
        if record ≠ none then ⟨stub, none, some (Err.New (utf8 "Mortgage already exists"))⟩
        else if caller_affiliation ≠ PRIMARY_LENDER then
          ⟨stub, none, some (Err.Sprintf (utf8 "Permission Denied. create_mortgage. %m === %m")
            [FmtArg.str caller_affiliation, FmtArg.str PRIMARY_LENDER])⟩
        else
          let s := save_changes stub m
          if s.2.2 ≠ none then ⟨s.1, none, some (Err.New (utf8 "Error saving changes"))⟩
          else
            let g := s.1.GetState (utf8 "mortIDs")
            if g.2 then ⟨s.1, none, some (Err.New (utf8 "Unable to get mortIDs"))⟩
            else
              let h := Unmarshal_MortID_Holder g.1
              if h.2 then ⟨s.1, none, some (Err.New (utf8 "Corrupt MortID_Holder record"))⟩
              else
                let w := s.1.PutState (utf8 "mortIDs")
                  (Marshal_MortID_Holder ⟨some (h.1.ids ++ [mortID])⟩)
                if w.2 then ⟨w.1, none, some (Err.New (utf8 "Unable to put the state"))⟩
                else ⟨w.1, none, none⟩ := by
  have hne : utf8 "\"MortID\":\"" ++ mortID ++ utf8 "\", " ≠ utf8 "" := by
    intro h
    have hl := congrArg List.length h
    have e1 : (utf8 "\"MortID\":\"").length = 10 := by decide
    have e2 : (utf8 "").length = 0 := by decide
    rw [List.length_append, List.length_append, e1, e2] at hl
    omega
  unfold create_mortgage
  simp only [if_neg hne]
  rfl

theorem parseElems_succ (f : Nat) (cs : List Char) :
    parseElems (f + 1) cs =
      match parseValue f cs with
      | none => none
      | some (v, r) =>
        match skipSpace r with
        | [] => none
        | d :: r1 =>
          if d = ',' then (parseElems f (skipSpace r1)).map fun p => (v :: p.1, p.2)
          else if d = ']' then some ([v], r1)
          else none := by
  rfl

theorem parseValue_empty_array (f : Nat) (r : List Char) :
    parseValue (f + 1) ('[' :: ']' :: r) = some (JValue.array [], r) := by
  rfl

theorem save_changes_ok (stub : Stub) (m : Mortgage) (h : stub.putFails m.MortID = false) :
    save_changes stub m =
      (⟨fun k => if k = m.MortID then some (Marshal_Mortgage m) else stub.state k,
        stub.getFails, stub.putFails, stub.attrs⟩, true, none) := by
  simp [save_changes, Stub.PutState, h]

theorem save_changes_fails (stub : Stub) (m : Mortgage) (h : stub.putFails m.MortID = true) :
    save_changes stub m = (stub, false, some (Err.New (utf8 "Error storing mortgage record"))) := by
  simp [save_changes, Stub.PutState, h]

theorem create_mortgage_success (stub : Stub) (caller caller_affiliation mortID : Bytes)
    (h : (create_mortgage stub caller caller_affiliation mortID).err = none) :
    (Unmarshal_Mortgage (some (mortgage_json caller mortID))).2 = false ∧
    (stub.GetState (Unmarshal_Mortgage (some (mortgage_json caller mortID))).1.MortID).1 = none ∧
    caller_affiliation = PRIMARY_LENDER ∧
    stub.putFails (Unmarshal_Mortgage (some (mortgage_json caller mortID))).1.MortID = false ∧
    stub.getFails (utf8 "mortIDs") = false ∧
    stub.putFails (utf8 "mortIDs") = false ∧
    ∃ hld : MortID_Holder,
      Unmarshal_MortID_Holder
        (if utf8 "mortIDs" = (Unmarshal_Mortgage (some (mortgage_json caller mortID))).1.MortID then
          some (Marshal_Mortgage (Unmarshal_Mortgage (some (mortgage_json caller mortID))).1)
        else stub.state (utf8 "mortIDs")) = (hld, false) ∧
      create_mortgage stub caller caller_affiliation mortID =
        ⟨⟨fun k =>
            if k = utf8 "mortIDs" then
              some (Marshal_MortID_Holder ⟨some (hld.ids ++ [mortID])⟩)
            else if k = (Unmarshal_Mortgage (some (mortgage_json caller mortID))).1.MortID then
              some (Marshal_Mortgage (Unmarshal_Mortgage (some (mortgage_json caller mortID))).1)
            else stub.state k,
          stub.getFails, stub.putFails, stub.attrs⟩, none, none⟩ := by
  rw [create_mortgage_eq] at h ⊢
  generalize Unmarshal_Mortgage (some (mortgage_json caller mortID)) = u at h ⊢
  dsimp only at h ⊢
  by_cases h1 : u.2 = true
  · simp [h1] at h
  have h1f : u.2 = false := by simpa using h1
  simp only [h1f, Bool.false_eq_true, if_false] at h ⊢
  by_cases h2 : (stub.GetState u.1.MortID).1 = none
  swap
  · simp [h2] at h
  simp only [h2, ne_eq, not_true_eq_false, if_false] at h ⊢
  by_cases h3 : caller_affiliation = PRIMARY_LENDER
  swap
  · simp [h3] at h
  simp only [h3, not_true_eq_false, if_false] at h ⊢
  by_cases h4 : stub.putFails u.1.MortID = true
  · simp [save_changes_fails stub u.1 h4] at h
  have h4f : stub.putFails u.1.MortID = false := by simpa using h4
  simp only [save_changes_ok stub u.1 h4f, not_true_eq_false, if_false] at h ⊢
  by_cases h5 : stub.getFails (utf8 "mortIDs") = true
  · simp [Stub.GetState, h5] at h
  have h5f : stub.getFails (utf8 "mortIDs") = false := by simpa using h5
  simp only [Stub.GetState, h5f, Bool.false_eq_true, if_false] at h ⊢
  generalize hH : Unmarshal_MortID_Holder
    (if utf8 "mortIDs" = u.1.MortID then some (Marshal_Mortgage u.1)
      else stub.state (utf8 "mortIDs")) = H
    at h ⊢
  by_cases h6 : H.2 = true
  · simp [h6] at h
  have h6f : H.2 = false := by simpa using h6
  simp only [h6f, Bool.false_eq_true, if_false] at h ⊢
  by_cases h7 : stub.putFails (utf8 "mortIDs") = true
  · simp [Stub.PutState, h7] at h
  have h7f : stub.putFails (utf8 "mortIDs") = false := by simpa using h7
  refine ⟨?_, ?_, ?_, ?_, ?_, ?_, H.1, ?_, ?_⟩
  · trivial
  · trivial
  · trivial
  · exact h4f
  · trivial
  · exact h7f
  · exact Prod.ext rfl h6f
  · simp [Stub.PutState, h7f]

/-! ## The step bounds of the reader -/

theorem getu4_length {cs rest : List Char} {r : Nat} (h : getu4 cs = some (r, rest)) :
    rest.length + 4 = cs.length := by
  match cs, h with
  | a :: b :: c :: d :: tail, h =>
    simp only [getu4] at h
    split at h
    · simp only [Option.some.injEq, Prod.mk.injEq] at h
      rw [← h.2]
      simp
    · exact absurd h (by simp)

theorem unquoteUnicode_length {cs rest : List Char} {x : Option Char}
    (h : unquoteUnicode cs = some (x, rest)) : rest.length < cs.length := by
  unfold unquoteUnicode at h
  split at h
  · simp at h
  · rename_i r rest1 hg
    have hl := getu4_length hg
    split_ifs at h
    · split at h
      · rename_i c1 c2 rest2
        split_ifs at h
        · split at h
          · simp at h
          · rename_i r2 rest3 hg2
            have hl2 := getu4_length hg2
            split at h <;>
              (simp only [Option.some.injEq, Prod.mk.injEq] at h
               rw [← h.2]
               simp only [List.length_cons] at hl ⊢
               omega)
        · simp only [Option.some.injEq, Prod.mk.injEq] at h
          rw [← h.2]
          omega
      · simp only [Option.some.injEq, Prod.mk.injEq] at h
        rw [← h.2]
        omega
    · simp only [Option.some.injEq, Prod.mk.injEq] at h
      rw [← h.2]
      omega

theorem unquoteEscape_length {e : Char} {cs rest : List Char} {x : Option Char}
    (h : unquoteEscape e cs = some (x, rest)) : rest.length ≤ cs.length := by
  unfold unquoteEscape at h
  split_ifs at h
  · exact Nat.le_of_lt (unquoteUnicode_length h)
  all_goals
    simp only [Option.some.injEq, Prod.mk.injEq] at h
    try rw [← h.2]

theorem unquoteStep_length {cs rest : List Char} {x : Option Char}
    (h : unquoteStep cs = some (x, rest)) : rest.length < cs.length := by
  cases cs with
  | nil => simp [unquoteStep] at h
  | cons c cs =>
    simp only [unquoteStep] at h
    split_ifs at h with h1 h2 h3
    · simp only [Option.some.injEq, Prod.mk.injEq] at h
      rw [← h.2]; simp
    · cases cs with
      | nil => simp at h
      | cons e tail =>
        have := unquoteEscape_length h
        simp only [List.length_cons]
        omega
    · simp only [Option.some.injEq, Prod.mk.injEq] at h
      rw [← h.2]; simp

/-- The bound on the number of turns never decides what `unquote` returns,
once it is at least the length of the text. -/
theorem unquote_fuel (f : Nat) : ∀ (cs : List Char) (g : Nat), cs.length ≤ f → cs.length ≤ g →
    unquote f cs = unquote g cs := by
  induction f with
  | zero =>
    intro cs g hf _
    have : cs = [] := List.length_eq_zero.mp (Nat.le_zero.mp hf)
    subst this
    cases g <;> simp [unquote, unquoteStep]
  | succ f ih =>
    intro cs g hf hg
    cases g with
    | zero =>
      have : cs = [] := List.length_eq_zero.mp (Nat.le_zero.mp hg)
      subst this
      simp [unquote, unquoteStep]
    | succ g =>
      rw [unquote, unquote]
      cases hs : unquoteStep cs with
      | none => rfl
      | some p =>
        obtain ⟨x, rest⟩ := p
        cases x with
        | none => rfl
        | some c =>
          have hl := unquoteStep_length hs
          simp only
          rw [ih rest g (by omega) (by omega)]

theorem unquote_length (f : Nat) : ∀ {cs s rest : List Char},
    unquote f cs = some (s, rest) → rest.length < cs.length := by
  induction f with
  | zero => intro cs s rest h; simp [unquote] at h
  | succ f ih =>
    intro cs s rest h
    rw [unquote] at h
    cases hs : unquoteStep cs with
    | none => simp [hs] at h
    | some p =>
      obtain ⟨x, r⟩ := p
      have hl := unquoteStep_length hs
      cases x with
      | none =>
        simp only [hs, Option.some.injEq, Prod.mk.injEq] at h
        rw [← h.2]; exact hl
      | some c =>
        simp only [hs] at h
        cases hu : unquote f r with
        | none => simp [hu] at h
        | some q =>
          obtain ⟨s1, r1⟩ := q
          have := ih hu
          simp only [hu, Option.map_some', Option.some.injEq, Prod.mk.injEq] at h
          rw [← h.2]
          omega

theorem skipSpace_length (cs : List Char) : (skipSpace cs).length ≤ cs.length := by
  induction cs with
  | nil => simp [skipSpace]
  | cons c cs ih =>
    simp only [skipSpace]
    split_ifs
    · simp only [List.length_cons]; omega
    · exact le_refl _

theorem skipDigits_length (cs : List Char) : (skipDigits cs).length ≤ cs.length := by
  induction cs with
  | nil => simp [skipDigits]
  | cons c cs ih =>
    simp only [skipDigits]
    split_ifs
    · simp only [List.length_cons]; omega
    · exact le_refl _

theorem scanExponent_length {cs r : List Char} (h : scanExponent cs = some r) :
    r.length ≤ cs.length := by
  cases cs with
  | nil => simp [scanExponent] at h; simp [h]
  | cons c cs =>
    simp only [scanExponent] at h
    split_ifs at h
    · cases cs with
      | nil => simp at h
      | cons d ds =>
        simp only at h
        split_ifs at h
        · cases ds with
          | nil => simp at h
          | cons x xs =>
            simp only at h
            split_ifs at h
            simp only [Option.some.injEq] at h
            have := skipDigits_length xs
            rw [← h]; simp only [List.length_cons]; omega
        · simp only [Option.some.injEq] at h
          have := skipDigits_length ds
          rw [← h]; simp only [List.length_cons]; omega
    · simp only [Option.some.injEq] at h
      rw [← h]

theorem scanFraction_length {cs r : List Char} (h : scanFraction cs = some r) :
    r.length ≤ cs.length := by
  cases cs with
  | nil => simp [scanFraction] at h; simp [h]
  | cons c cs =>
    simp only [scanFraction] at h
    split_ifs at h
    · cases cs with
      | nil => simp at h
      | cons d ds =>
        simp only at h
        split_ifs at h
        have := scanExponent_length h
        have := skipDigits_length ds
        simp only [List.length_cons]; omega
    · exact scanExponent_length h

theorem scanDigits_length {cs r : List Char} (h : scanDigits cs = some r) :
    r.length < cs.length := by
  cases cs with
  | nil => simp [scanDigits] at h
  | cons c cs =>
    simp only [scanDigits] at h
    split_ifs at h
    · have := scanFraction_length h
      simp only [List.length_cons]; omega
    · have := scanFraction_length h
      have := skipDigits_length cs
      simp only [List.length_cons]; omega

theorem scanNumber_length {cs r : List Char} (h : scanNumber cs = some r) :
    r.length < cs.length := by
  cases cs with
  | nil => simp [scanNumber] at h
  | cons c cs =>
    simp only [scanNumber] at h
    split_ifs at h
    · have := scanDigits_length h
      simp only [List.length_cons]; omega
    · exact scanDigits_length h

theorem stripLiteral_length (lit : List Char) : ∀ {cs r : List Char},
    stripLiteral lit cs = some r → r.length ≤ cs.length := by
  induction lit with
  | nil => intro cs r h; simp [stripLiteral] at h; simp [h]
  | cons a lit ih =>
    intro cs r h
    cases cs with
    | nil => simp [stripLiteral] at h
    | cons c cs =>
      simp only [stripLiteral] at h
      split_ifs at h
      have := ih h
      simp only [List.length_cons]; omega

theorem parseScalar_length {cs r : List Char} {v : JValue} (h : parseScalar cs = some (v, r)) :
    r.length < cs.length := by
  cases cs with
  | nil => simp [parseScalar] at h
  | cons c cs =>
    simp only [parseScalar] at h
    split_ifs at h
    · cases hu : unquote cs.length cs with
      | none => simp [hu] at h
      | some p =>
        have := unquote_length _ (show unquote cs.length cs = some (p.1, p.2) from hu)
        simp only [hu, Option.map_some', Option.some.injEq, Prod.mk.injEq] at h
        rw [← h.2]; simp only [List.length_cons]; omega
    · cases hu : stripLiteral ['r', 'u', 'e'] cs with
      | none => simp [hu] at h
      | some p =>
        have := stripLiteral_length _ hu
        simp only [hu, Option.map_some', Option.some.injEq, Prod.mk.injEq] at h
        rw [← h.2]; simp only [List.length_cons]; omega
    · cases hu : stripLiteral ['a', 'l', 's', 'e'] cs with
      | none => simp [hu] at h
      | some p =>
        have := stripLiteral_length _ hu
        simp only [hu, Option.map_some', Option.some.injEq, Prod.mk.injEq] at h
        rw [← h.2]; simp only [List.length_cons]; omega
    · cases hu : stripLiteral ['u', 'l', 'l'] cs with
      | none => simp [hu] at h
      | some p =>
        have := stripLiteral_length _ hu
        simp only [hu, Option.map_some', Option.some.injEq, Prod.mk.injEq] at h
        rw [← h.2]; simp only [List.length_cons]; omega
    · cases hu : scanNumber (c :: cs) with
      | none => simp [hu] at h
      | some p =>
        have := scanNumber_length hu
        simp only [hu, Option.map_some', Option.some.injEq, Prod.mk.injEq] at h
        rw [← h.2]; exact this

theorem parseValue_cons (f : Nat) (c : Char) (r : List Char) :
    parseValue (f + 1) (c :: r) =
      if c = '{' then
        match skipSpace r with
        | [] => none
        | d :: r1 =>
          if d = '}' then some (JValue.object [], r1)
          else (parseMembers f (d :: r1)).map fun p => (JValue.object p.1, p.2)
      else if c = '[' then
        match skipSpace r with
        | [] => none
        | d :: r1 =>
          if d = ']' then some (JValue.array [], r1)
          else (parseElems f (d :: r1)).map fun p => (JValue.array p.1, p.2)
      else parseScalar (c :: r) := by
  rw [parseValue]

theorem parseMembers_cons (f : Nat) (q : Char) (r : List Char) :
    parseMembers (f + 1) (q :: r) =
      if q = '"' then
        match unquote r.length r with
        | none => none
        | some (k, r1) =>
          match skipSpace r1 with
          | [] => none
          | d :: r2 =>
            if d = ':' then
              match parseValue f (skipSpace r2) with
              | none => none
              | some (v, r3) =>
                match skipSpace r3 with
                | [] => none
                | e :: r4 =>
                  if e = ',' then
                    (parseMembers f (skipSpace r4)).map fun p => ((String.mk k, v) :: p.1, p.2)
                  else if e = '}' then some ([(String.mk k, v)], r4)
                  else none
            else none
      else none := by
  rw [parseMembers]

theorem parse_length (f : Nat) :
    (∀ (cs : List Char) (v : JValue) (r : List Char),
      parseValue f cs = some (v, r) → r.length < cs.length) ∧
    (∀ (cs : List Char) (vs : List JValue) (r : List Char),
      parseElems f cs = some (vs, r) → r.length < cs.length) ∧
    (∀ (cs : List Char) (ms : List (String × JValue)) (r : List Char),
      parseMembers f cs = some (ms, r) → r.length < cs.length) := by
  induction f with
  | zero =>
    refine ⟨?_, ?_, ?_⟩ <;> intro cs v r h
    · simp [parseValue] at h
    · simp [parseElems] at h
    · simp [parseMembers] at h
  | succ f ih =>
    obtain ⟨ihV, ihE, ihM⟩ := ih
    refine ⟨?_, ?_, ?_⟩
    · intro cs v r h
      cases cs with
      | nil => simp [parseValue] at h
      | cons c t =>
        rw [parseValue_cons] at h
        have hsp := skipSpace_length t
        split_ifs at h with h1 h2
        · cases hs : skipSpace t with
          | nil => simp [hs] at h
          | cons d r1 =>
            rw [hs] at hsp
            simp only [hs] at h
            split_ifs at h
            · simp only [Option.some.injEq, Prod.mk.injEq] at h
              rw [← h.2]; simp only [List.length_cons] at hsp ⊢; omega
            · cases hu : parseMembers f (d :: r1) with
              | none => simp [hu] at h
              | some p =>
                have := ihM _ _ _ (show parseMembers f (d :: r1) = some (p.1, p.2) from hu)
                simp only [hu, Option.map_some', Option.some.injEq, Prod.mk.injEq] at h
                rw [← h.2]; simp only [List.length_cons] at hsp this ⊢; omega
        · cases hs : skipSpace t with
          | nil => simp [hs] at h
          | cons d r1 =>
            rw [hs] at hsp
            simp only [hs] at h
            split_ifs at h
            · simp only [Option.some.injEq, Prod.mk.injEq] at h
              rw [← h.2]; simp only [List.length_cons] at hsp ⊢; omega
            · cases hu : parseElems f (d :: r1) with
              | none => simp [hu] at h
              | some p =>
                have := ihE _ _ _ (show parseElems f (d :: r1) = some (p.1, p.2) from hu)
                simp only [hu, Option.map_some', Option.some.injEq, Prod.mk.injEq] at h
                rw [← h.2]; simp only [List.length_cons] at hsp this ⊢; omega
        · exact parseScalar_length h
    · intro cs vs r h
      rw [parseElems_succ] at h
      cases hv : parseValue f cs with
      | none => simp [hv] at h
      | some p =>
        obtain ⟨v, r0⟩ := p
        have h0 := ihV _ _ _ hv
        simp only [hv] at h
        have hsp := skipSpace_length r0
        cases hs : skipSpace r0 with
        | nil => simp [hs] at h
        | cons d r1 =>
          rw [hs] at hsp
          simp only [hs] at h
          split_ifs at h
          · cases hu : parseElems f (skipSpace r1) with
            | none => simp [hu] at h
            | some q =>
              have := ihE _ _ _ (show parseElems f (skipSpace r1) = some (q.1, q.2) from hu)
              have := skipSpace_length r1
              simp only [hu, Option.map_some', Option.some.injEq, Prod.mk.injEq] at h
              rw [← h.2]; simp only [List.length_cons] at hsp; omega
          · simp only [Option.some.injEq, Prod.mk.injEq] at h
            rw [← h.2]; simp only [List.length_cons] at hsp; omega
    · intro cs ms r h
      cases cs with
      | nil => simp [parseMembers] at h
      | cons q t =>
        rw [parseMembers_cons] at h
        split_ifs at h
        cases hk : unquote t.length t with
        | none => simp [hk] at h
        | some p =>
          obtain ⟨k, r1⟩ := p
          have hk1 := unquote_length _ hk
          simp only [hk] at h
          have hsp1 := skipSpace_length r1
          cases hs1 : skipSpace r1 with
          | nil => simp [hs1] at h
          | cons d r2 =>
            rw [hs1] at hsp1
            simp only [hs1] at h
            split_ifs at h
            have hsp2 := skipSpace_length r2
            cases hv : parseValue f (skipSpace r2) with
            | none => simp [hv] at h
            | some pv =>
              obtain ⟨v, r3⟩ := pv
              have h3 := ihV _ _ _ hv
              simp only [hv] at h
              have hsp3 := skipSpace_length r3
              cases hs3 : skipSpace r3 with
              | nil => simp [hs3] at h
              | cons e r4 =>
                rw [hs3] at hsp3
                simp only [hs3] at h
                split_ifs at h
                · cases hu : parseMembers f (skipSpace r4) with
                  | none => simp [hu] at h
                  | some pm =>
                    have := ihM _ _ _
                      (show parseMembers f (skipSpace r4) = some (pm.1, pm.2) from hu)
                    have := skipSpace_length r4
                    simp only [hu, Option.map_some', Option.some.injEq, Prod.mk.injEq] at h
                    rw [← h.2]; simp only [List.length_cons] at hsp1 hsp3 ⊢; omega
                · simp only [Option.some.injEq, Prod.mk.injEq] at h
                  rw [← h.2]; simp only [List.length_cons] at hsp1 hsp3 ⊢; omega

theorem parse_fuel (f : Nat) :
    (∀ (cs : List Char) (g : Nat), 2 * cs.length + 1 ≤ f → 2 * cs.length + 1 ≤ g →
      parseValue f cs = parseValue g cs) ∧
    (∀ (cs : List Char) (g : Nat), 2 * cs.length + 2 ≤ f → 2 * cs.length + 2 ≤ g →
      parseElems f cs = parseElems g cs) ∧
    (∀ (cs : List Char) (g : Nat), 2 * cs.length + 2 ≤ f → 2 * cs.length + 2 ≤ g →
      parseMembers f cs = parseMembers g cs) := by
  induction f with
  | zero =>
    refine ⟨?_, ?_, ?_⟩ <;> intro cs g hf _ <;> omega
  | succ f ih =>
    obtain ⟨ihV, ihE, ihM⟩ := ih
    refine ⟨?_, ?_, ?_⟩
    · intro cs g hf hg
      obtain ⟨g, rfl⟩ : ∃ k, g = k + 1 := ⟨g - 1, by omega⟩
      cases cs with
      | nil => simp [parseValue]
      | cons c t =>
        rw [parseValue_cons, parseValue_cons]
        have hsp := skipSpace_length t
        simp only [List.length_cons] at hf hg
        split_ifs with h1 h2
        · cases hs : skipSpace t with
          | nil => rfl
          | cons d r1 =>
            rw [hs] at hsp
            simp only [List.length_cons] at hsp
            simp only
            rw [ihM (d :: r1) g (by simp only [List.length_cons]; omega)
              (by simp only [List.length_cons]; omega)]
        · cases hs : skipSpace t with
          | nil => rfl
          | cons d r1 =>
            rw [hs] at hsp
            simp only [List.length_cons] at hsp
            simp only
            rw [ihE (d :: r1) g (by simp only [List.length_cons]; omega)
              (by simp only [List.length_cons]; omega)]
        · rfl
    · intro cs g hf hg
      obtain ⟨g, rfl⟩ : ∃ k, g = k + 1 := ⟨g - 1, by omega⟩
      rw [parseElems_succ, parseElems_succ, ← ihV cs g (by omega) (by omega)]
      cases hv : parseValue f cs with
      | none => rfl
      | some p =>
        obtain ⟨v, r0⟩ := p
        have h0 := (parse_length f).1 _ _ _ hv
        have hsp := skipSpace_length r0
        simp only
        cases hs : skipSpace r0 with
        | nil => rfl
        | cons d r1 =>
          rw [hs] at hsp
          simp only [List.length_cons] at hsp
          have := skipSpace_length r1
          simp only
          rw [ihE (skipSpace r1) g (by omega) (by omega)]
    · intro cs g hf hg
      obtain ⟨g, rfl⟩ : ∃ k, g = k + 1 := ⟨g - 1, by omega⟩
      cases cs with
      | nil => simp [parseMembers]
      | cons q t =>
        rw [parseMembers_cons, parseMembers_cons]
        simp only [List.length_cons] at hf hg
        split_ifs
        · cases hk : unquote t.length t with
          | none => rfl
          | some p =>
            obtain ⟨k, r1⟩ := p
            have hk1 := unquote_length _ hk
            have hsp1 := skipSpace_length r1
            simp only
            cases hs1 : skipSpace r1 with
            | nil => rfl
            | cons d r2 =>
              rw [hs1] at hsp1
              simp only [List.length_cons] at hsp1
              have hsp2 := skipSpace_length r2
              simp only
              rw [← ihV (skipSpace r2) g (by omega) (by omega)]
              split_ifs
              · cases hv : parseValue f (skipSpace r2) with
                | none => rfl
                | some pv =>
                  obtain ⟨v, r3⟩ := pv
                  have h3 := (parse_length f).1 _ _ _ hv
                  have hsp3 := skipSpace_length r3
                  simp only
                  cases hs3 : skipSpace r3 with
                  | nil => rfl
                  | cons e r4 =>
                    rw [hs3] at hsp3
                    simp only [List.length_cons] at hsp3
                    have := skipSpace_length r4
                    simp only
                    rw [ihM (skipSpace r4) g (by omega) (by omega)]
              · rfl
        · rfl

/-- The bound on the depth of the recursion never decides what the reader
returns, once it is at least twice the length of the text plus one: the
reader is a total function of the text. -/
theorem parseValue_fuel (cs : List Char) (g : Nat) (h : 2 * cs.length + 1 ≤ g) :
    parseValue g cs = parseValue (2 * cs.length + 1) cs :=
  ((parse_fuel g).1 cs (2 * cs.length + 1) h (le_refl _))

/-! ## Transfer -/

/-- C1, as stated, fails: a string is persisted as JSON text, which cannot
hold a byte that is no well-formed UTF-8.  The transfer of `M1` to the
recipient whose name is the two bytes `S`, 0xFF succeeds, and the record
persisted under `M1` has the owner `S`, U+FFFD, not the recipient. -/
theorem pl_to_sl_recipient_not_utf8 :
    (emptyStub "P1" "pl").putFails (utf8 "M1") = false ∧
    (pl_to_sl (emptyStub "P1" "pl") ⟨utf8 "M1", utf8 "UNDEFINED", utf8 "P1"⟩ (utf8 "P1")
      (utf8 "pl") [0x53, 0xff] (utf8 "sl")).err = none ∧
    (retrieve_mortgage
      (pl_to_sl (emptyStub "P1" "pl") ⟨utf8 "M1", utf8 "UNDEFINED", utf8 "P1"⟩ (utf8 "P1")
        (utf8 "pl") [0x53, 0xff] (utf8 "sl")).stub (utf8 "M1")) =
      (⟨utf8 "M1", utf8 "UNDEFINED", [0x53, 0xef, 0xbf, 0xbd]⟩, none) ∧
    ([0x53, 0xef, 0xbf, 0xbd] : Bytes) ≠ [0x53, 0xff] := by
  decide

/-- C1, amended. When the write to the record's key succeeds, `pl_to_sl`
succeeds exactly when the caller owns the record, the caller's role is `"pl"`
and the recipient's role is `"sl"`; on success the entry at `m.MortID` is the
serialisation of `m` with `Owner` replaced by the recipient, and when
`m.MortID`, `m.Lendee` and the recipient are valid UTF-8 that entry reads back
as that record, `MortID` and `Lendee` unchanged; on failure the ledger is
untouched. -/
theorem pl_to_sl_succeeds_iff (stub : Stub) (m : Mortgage)
    (caller caller_affiliation recipient_name recipient_affiliation : Bytes)
    (hw : stub.putFails m.MortID = false) :
    ((pl_to_sl stub m caller caller_affiliation recipient_name recipient_affiliation).err = none ↔
      (m.Owner = caller ∧ caller_affiliation = utf8 "pl" ∧ recipient_affiliation = utf8 "sl")) ∧
    ((pl_to_sl stub m caller caller_affiliation recipient_name recipient_affiliation).err = none →
      (pl_to_sl stub m caller caller_affiliation recipient_name recipient_affiliation).stub.state
          m.MortID = some (Marshal_Mortgage ⟨m.MortID, m.Lendee, recipient_name⟩) ∧
      (validUTF8 m.MortID = true → validUTF8 m.Lendee = true →
        validUTF8 recipient_name = true →
        Unmarshal_Mortgage
            ((pl_to_sl stub m caller caller_affiliation recipient_name
              recipient_affiliation).stub.state m.MortID) =
          (⟨m.MortID, m.Lendee, recipient_name⟩, false))) ∧
    ((pl_to_sl stub m caller caller_affiliation recipient_name recipient_affiliation).err ≠ none →
      (pl_to_sl stub m caller caller_affiliation recipient_name recipient_affiliation).stub =
        stub) := by
  by_cases hc : m.Owner = caller ∧ caller_affiliation = PRIMARY_LENDER ∧
      recipient_affiliation = SECONDARY_LENDER
  · have hs : (pl_to_sl stub m caller caller_affiliation recipient_name
        recipient_affiliation).stub.state m.MortID =
        some (Marshal_Mortgage ⟨m.MortID, m.Lendee, recipient_name⟩) := by
      simp [pl_to_sl, hc, save_changes, Stub.PutState, hw]
    have he : (pl_to_sl stub m caller caller_affiliation recipient_name
        recipient_affiliation).err = none := by
      simp [pl_to_sl, hc, save_changes, Stub.PutState, hw]
    refine ⟨⟨fun _ => hc, fun _ => he⟩, fun _ => ⟨hs, ?_⟩, fun h => absurd he h⟩
    intro v1 v2 v3
    rw [hs]
    exact Unmarshal_Marshal_Mortgage ⟨m.MortID, m.Lendee, recipient_name⟩ v1 v2 v3
  · have he : (pl_to_sl stub m caller caller_affiliation recipient_name
        recipient_affiliation).err ≠ none := by
      simp [pl_to_sl, hc]
    refine ⟨⟨fun h => absurd h he, fun h => absurd h hc⟩, fun h => absurd h he, fun _ => ?_⟩
    simp [pl_to_sl, hc]

/-- C1 amended, at a concrete transfer: `P1` hands `M1` to `S1`. -/
theorem pl_to_sl_succeeds_iff_witness :
    (emptyStub "P1" "pl").putFails (utf8 "M1") = false ∧
    (pl_to_sl (emptyStub "P1" "pl") ⟨utf8 "M1", utf8 "UNDEFINED", utf8 "P1"⟩ (utf8 "P1")
      (utf8 "pl") (utf8 "S1") (utf8 "sl")).stub.state (utf8 "M1") =
      some (Marshal_Mortgage ⟨utf8 "M1", utf8 "UNDEFINED", utf8 "S1"⟩) ∧
    Unmarshal_Mortgage
        ((pl_to_sl (emptyStub "P1" "pl") ⟨utf8 "M1", utf8 "UNDEFINED", utf8 "P1"⟩ (utf8 "P1")
          (utf8 "pl") (utf8 "S1") (utf8 "sl")).stub.state (utf8 "M1")) =
      (⟨utf8 "M1", utf8 "UNDEFINED", utf8 "S1"⟩, false) :=
  ⟨rfl,
    ((pl_to_sl_succeeds_iff (emptyStub "P1" "pl") ⟨utf8 "M1", utf8 "UNDEFINED", utf8 "P1"⟩
      (utf8 "P1") (utf8 "pl") (utf8 "S1") (utf8 "sl") rfl).2.1
      (((pl_to_sl_succeeds_iff (emptyStub "P1" "pl") ⟨utf8 "M1", utf8 "UNDEFINED", utf8 "P1"⟩
        (utf8 "P1") (utf8 "pl") (utf8 "S1") (utf8 "sl") rfl).1).2 ⟨rfl, rfl, rfl⟩)).1,
    ((pl_to_sl_succeeds_iff (emptyStub "P1" "pl") ⟨utf8 "M1", utf8 "UNDEFINED", utf8 "P1"⟩
      (utf8 "P1") (utf8 "pl") (utf8 "S1") (utf8 "sl") rfl).2.1
      (((pl_to_sl_succeeds_iff (emptyStub "P1" "pl") ⟨utf8 "M1", utf8 "UNDEFINED", utf8 "P1"⟩
        (utf8 "P1") (utf8 "pl") (utf8 "S1") (utf8 "sl") rfl).1).2 ⟨rfl, rfl, rfl⟩)).2
      (by decide) (by decide) (by decide)⟩

/-! ## Creation -/

/-- C2. A failing `create_mortgage` can leave a write behind: on the ledger
`Init` produces, creation of `M1` by a primary lender returns the error
`Corrupt MortID_Holder record` after the record has been stored under `M1`;
and on a ledger with a valid index whose write fails, it returns
`Unable to put the state`, again with the record stored. -/
theorem create_mortgage_error_after_write :
    (create_mortgage (initStub "P1" "pl") (utf8 "P1") (utf8 "pl") (utf8 "M1")).err =
      some (Err.New (utf8 "Corrupt MortID_Holder record")) ∧
    (initStub "P1" "pl").state (utf8 "M1") = none ∧
    (create_mortgage (initStub "P1" "pl") (utf8 "P1") (utf8 "pl") (utf8 "M1")).stub.state
        (utf8 "M1") =
      some (Marshal_Mortgage ⟨utf8 "M1", utf8 "UNDEFINED", utf8 "P1"⟩) ∧
    (create_mortgage { seededStub "P1" "pl" with putFails := fun k => k = utf8 "mortIDs" }
      (utf8 "P1") (utf8 "pl") (utf8 "M1")).err = some (Err.New (utf8 "Unable to put the state")) ∧
    (create_mortgage { seededStub "P1" "pl" with putFails := fun k => k = utf8 "mortIDs" }
      (utf8 "P1") (utf8 "pl") (utf8 "M1")).stub.state (utf8 "M1") =
          some (Marshal_Mortgage ⟨utf8 "M1", utf8 "UNDEFINED", utf8 "P1"⟩) := by
  decide

/-- C3. `Init` stores the empty holder under `"MortIDs"`, not under the key
`"mortIDs"` that creation and listing read: after `Init` on the empty ledger
the entry at `"mortIDs"` is absent, `create_mortgage` of the fresh id `M1` by
a primary lender fails with `Corrupt MortID_Holder record`, and
`get_mortgages` fails with `Corrupt MortID_Holder`. -/
theorem Init_leaves_index_absent :
    (Init (emptyStub "P1" "pl") (utf8 "init") []).map (fun r => r.err) = some none ∧
    (Init (emptyStub "P1" "pl") (utf8 "init") []).map (fun r => r.stub.state (utf8 "mortIDs")) =
        some none ∧
    (Init (emptyStub "P1" "pl") (utf8 "init") []).map (fun r => r.stub.state (utf8 "MortIDs")) =
      some (some (utf8 "\x7b\"mortIDs\":null\x7d")) ∧
    (initStub "P1" "pl").state (utf8 "MortIDs") = some (utf8 "\x7b\"mortIDs\":null\x7d") ∧
    (initStub "P1" "pl").state (utf8 "mortIDs") = none ∧
    (create_mortgage (initStub "P1" "pl") (utf8 "P1") (utf8 "pl") (utf8 "M1")).err =
      some (Err.New (utf8 "Corrupt MortID_Holder record")) ∧
    (get_mortgages (initStub "P1" "pl") (utf8 "P1") (utf8 "pl")).err =
      some (Err.New (utf8 "Corrupt MortID_Holder")) ∧
    (get_mortgages (initStub "P1" "pl") (utf8 "P1") (utf8 "pl")).bytes = none := by
  decide

/-- C4, as stated, fails: a secondary lender creating an id that already
exists is refused with `Mortgage already exists`, which is not a
`Permission Denied.` error. -/
theorem create_mortgage_existing_id_not_permission_denied :
    utf8 "sl" ≠ PRIMARY_LENDER ∧
    (create_mortgage (create_mortgage (seededStub "P1" "pl") (utf8 "P1") (utf8 "pl")
        (utf8 "M1")).stub
      (utf8 "S1") (utf8 "sl") (utf8 "M1")).err = some (Err.New (utf8 "Mortgage already exists")) ∧
    (Err.New (utf8 "Mortgage already exists")).isPermissionDenied = false := by
  decide

/-- C4, amended. For every ledger, caller and id and every role other than
`"pl"`, `create_mortgage` fails, returns no bytes and leaves the ledger as it
was.  The error is `Invalid JSON object` when the text built from id and
caller does not parse, `Mortgage already exists` when the ledger has an entry
under the parsed id, and the `Permission Denied.` error in every other case;
in particular it is `Permission Denied.` when the ledger has no entry under
id, for id and caller that are plain: valid UTF-8 without quote, backslash or
control character. -/
theorem create_mortgage_non_primary_lender (stub : Stub) (caller caller_affiliation mortID : Bytes)
    (h : caller_affiliation ≠ utf8 "pl") :
    (create_mortgage stub caller caller_affiliation mortID).stub = stub ∧
    (create_mortgage stub caller caller_affiliation mortID).bytes = none ∧
    (create_mortgage stub caller caller_affiliation mortID).err =
      some (if (Unmarshal_Mortgage (some (mortgage_json caller mortID))).2 then
          Err.New (utf8 "Invalid JSON object")
        else if (stub.GetState
            (Unmarshal_Mortgage (some (mortgage_json caller mortID))).1.MortID).1 ≠ none then
          Err.New (utf8 "Mortgage already exists")
        else Err.Sprintf (utf8 "Permission Denied. create_mortgage. %m === %m")
          [FmtArg.str caller_affiliation, FmtArg.str (utf8 "pl")]) ∧
    (plain caller = true → plain mortID = true → stub.state mortID = none →
      ∃ e, (create_mortgage stub caller caller_affiliation mortID).err = some e ∧
        e.isPermissionDenied = true) := by
  have h1 : caller_affiliation ≠ PRIMARY_LENDER := h
  rw [create_mortgage_eq]
  refine ⟨?_, ?_, ?_, ?_⟩
  · dsimp only; split_ifs <;> rfl
  · dsimp only; split_ifs <;> rfl
  · dsimp only; split_ifs <;> rfl
  · intro hc hm hs
    have hg : (stub.GetState mortID).1 = none := by
      unfold Stub.GetState; split_ifs <;> simp [hs]
    refine ⟨Err.Sprintf (utf8 "Permission Denied. create_mortgage. %m === %m")
      [FmtArg.str caller_affiliation, FmtArg.str PRIMARY_LENDER], ?_, rfl⟩
    simp [Unmarshal_mortgage_json caller mortID hc hm, hg, h1]

/-- C4 amended, at a concrete call: a secondary lender creating `M1` on a
ledger without that id. -/
theorem create_mortgage_non_primary_lender_witness :
    utf8 "sl" ≠ utf8 "pl" ∧
    (create_mortgage (seededStub "S1" "sl") (utf8 "S1") (utf8 "sl") (utf8 "M1")).stub =
        seededStub "S1" "sl" ∧
    (create_mortgage (seededStub "S1" "sl") (utf8 "S1") (utf8 "sl") (utf8 "M1")).bytes = none :=
  ⟨by decide,
    (create_mortgage_non_primary_lender (seededStub "S1" "sl") (utf8 "S1") (utf8 "sl") (utf8 "M1")
        (by decide)).1,
    (create_mortgage_non_primary_lender (seededStub "S1" "sl") (utf8 "S1") (utf8 "sl") (utf8 "M1")
        (by decide)).2.1⟩

/-! ## Caller data -/

/-- C5. The role handed to the registry is the literal `"pl"`, not the
certificate's `role` attribute: for a caller whose certificate says
`"sl"`, `check_affiliation` would read `"sl"`, `get_caller_data` yields
`"pl"`, and an `Invoke` of `create_mortgage` succeeds and stores the record
with that caller as owner. -/
theorem Invoke_create_mortgage_by_secondary_lender :
    check_affiliation (seededStub "S1" "sl") = (utf8 "sl", none) ∧
    get_caller_data (seededStub "S1" "sl") = (utf8 "S1", utf8 "pl", none) ∧
    (Invoke (seededStub "S1" "sl") (utf8 "create_mortgage") [utf8 "M1"]).map (fun r => r.err) =
        some none ∧
    (Invoke (seededStub "S1" "sl") (utf8 "create_mortgage") [utf8 "M1"]).map
        (fun r => r.stub.state (utf8 "M1")) =
      some (some (Marshal_Mortgage ⟨utf8 "M1", utf8 "UNDEFINED", utf8 "S1"⟩)) ∧
    (Invoke (seededStub "R1" "regulator") (utf8 "create_mortgage") [utf8 "M1"]).map (fun r => r.err) =
      some none := by
  decide

/-! ## Reading -/

/-- C6. `get_mortgage_details` returns the serialised record when the caller
is its owner, and otherwise no bytes and the error
`Permission Denied. get_mortgage_details`; it never touches the ledger and
the affiliation argument does not enter the result. -/
theorem get_mortgage_details_owner_only (stub : Stub) (m : Mortgage)
    (caller caller_affiliation : Bytes) :
    (get_mortgage_details stub m caller caller_affiliation).stub = stub ∧
    (m.Owner = caller →
      (get_mortgage_details stub m caller caller_affiliation).bytes = some (Marshal_Mortgage m) ∧
      (get_mortgage_details stub m caller caller_affiliation).err = none) ∧
    (m.Owner ≠ caller →
      (get_mortgage_details stub m caller caller_affiliation).bytes = none ∧
      (get_mortgage_details stub m caller caller_affiliation).err =
        some (Err.New (utf8 "Permission Denied. get_mortgage_details")) ∧
      (Err.New (utf8 "Permission Denied. get_mortgage_details")).isPermissionDenied = true) ∧
    (∀ other : Bytes, get_mortgage_details stub m caller other =
      get_mortgage_details stub m caller caller_affiliation) := by
  refine ⟨?_, ?_, ?_, fun _ => rfl⟩
  · unfold get_mortgage_details; split_ifs <;> rfl
  · intro h; simp [get_mortgage_details, h]
  · intro h; refine ⟨?_, ?_, by decide⟩ <;> simp [get_mortgage_details, h]

/-- C6, at a concrete record: the owner `A` reads it, `B` is refused, whatever
the affiliation. -/
theorem get_mortgage_details_owner_only_witness :
    (get_mortgage_details (emptyStub "A" "pl") ⟨utf8 "X", utf8 "UNDEFINED", utf8 "A"⟩ (utf8 "A")
        (utf8 "sl")).bytes =
      some (Marshal_Mortgage ⟨utf8 "X", utf8 "UNDEFINED", utf8 "A"⟩) ∧
    (get_mortgage_details (emptyStub "B" "regulator") ⟨utf8 "X", utf8 "UNDEFINED", utf8 "A"⟩
        (utf8 "B")
      (utf8 "regulator")).bytes = none :=
  ⟨((get_mortgage_details_owner_only (emptyStub "A" "pl") ⟨utf8 "X", utf8 "UNDEFINED", utf8 "A"⟩
      (utf8 "A") (utf8 "sl")).2.1
      rfl).1,
    ((get_mortgage_details_owner_only (emptyStub "B" "regulator")
        ⟨utf8 "X", utf8 "UNDEFINED", utf8 "A"⟩ (utf8 "B")
      (utf8 "regulator")).2.2.1 (by decide)).1⟩

/-! ## Listing -/

theorem get_mortgages_loop_eq (stub : Stub) (caller caller_affiliation : Bytes)
    (ids : List Bytes) (result : Bytes)
    (hr : ∀ id ∈ ids, (retrieve_mortgage stub id).2 = none) :
    get_mortgages_loop stub caller caller_affiliation ids result =
      some (result ++ trailing ((visible stub caller ids).map Marshal_Mortgage)) := by
  induction ids generalizing result with
  | nil => simp [get_mortgages_loop, visible, trailing]
  | cons id rest ih =>
    have h1 : (retrieve_mortgage stub id).2 = none := hr id (List.mem_cons_self _ _)
    have h2 : ∀ x ∈ rest, (retrieve_mortgage stub x).2 = none :=
      fun x hx => hr x (List.mem_cons_of_mem _ hx)
    by_cases ho : (retrieve_mortgage stub id).1.Owner = caller
    · have hv : visible stub caller (id :: rest) =
          (retrieve_mortgage stub id).1 :: visible stub caller rest := by
        simp [visible, ho]
      simp only [get_mortgages_loop, h1, get_mortgage_details, ho, hv]
      simp only [ne_eq, not_true_eq_false, if_false, if_true, Option.getD_some]
      rw [ih _ h2]
      simp [trailing, List.append_assoc]
    · have hv : visible stub caller (id :: rest) = visible stub caller rest := by
        simp [visible, ho]
      simp only [get_mortgages_loop, h1, get_mortgage_details, ho, hv]
      simp only [ne_eq, not_true_eq_false, if_false]
      rw [if_neg (by simp)]
      exact ih _ h2

theorem trailing_cons (x : Bytes) (xs : List Bytes) :
    trailing (x :: xs) = (utf8 ",").intercalate (x :: xs) ++ utf8 "," := by
  induction xs generalizing x with
  | nil => simp [trailing, List.intercalate]
  | cons y ys ih =>
    rw [trailing, ih y]
    simp [List.intercalate, List.append_assoc]

/-- C7. When the index at `"mortIDs"` is readable and parses to the holder
`h`, and every listed id is retrievable, `get_mortgages` succeeds without
touching the ledger and returns the JSON array of the serialised records, in
index order, of exactly those listed ids whose owner is the caller; that is
`[]` when the index is empty or no record is the caller's. -/
theorem get_mortgages_lists_owned (stub : Stub) (caller caller_affiliation : Bytes)
    (h : MortID_Holder) (hg : stub.getFails (utf8 "mortIDs") = false)
    (hi : Unmarshal_MortID_Holder (stub.state (utf8 "mortIDs")) = (h, false))
    (hr : ∀ id ∈ h.ids, (retrieve_mortgage stub id).2 = none) :
    (get_mortgages stub caller caller_affiliation).stub = stub ∧
    (get_mortgages stub caller caller_affiliation).err = none ∧
    (get_mortgages stub caller caller_affiliation).bytes =
      some (jsonArray ((visible stub caller h.ids).map Marshal_Mortgage)) ∧
    (∀ m ∈ visible stub caller h.ids, m.Owner = caller) ∧
    (visible stub caller h.ids = [] →
      (get_mortgages stub caller caller_affiliation).bytes = some (utf8 "[]")) := by
  have hG : stub.GetState (utf8 "mortIDs") = (stub.state (utf8 "mortIDs"), false) := by
    simp [Stub.GetState, hg]
  have hloop := get_mortgages_loop_eq stub caller caller_affiliation h.ids (utf8 "[") hr
  have hb : (utf8 "[").length = 1 := by decide
  have hcm : utf8 "," = [UInt8.ofNat 44] := by decide
  have key : get_mortgages stub caller caller_affiliation =
      ⟨stub, some (jsonArray ((visible stub caller h.ids).map Marshal_Mortgage)), none⟩ := by
    unfold get_mortgages
    simp only [hG, hi, hloop]
    cases hv : (visible stub caller h.ids).map Marshal_Mortgage with
    | nil =>
      simp only [trailing, List.append_nil, hb, if_true, Bool.false_eq_true, if_false, jsonArray]
      rfl
    | cons x xs =>
      rw [trailing_cons]
      have hlen : (utf8 "[" ++ ((utf8 ",").intercalate (x :: xs) ++ utf8 ",")).length ≠ 1 := by
        rw [List.length_append, List.length_append, hb, hcm, List.length_singleton]
        omega
      have hd : (utf8 "[" ++ ((utf8 ",").intercalate (x :: xs) ++ utf8 ",")).dropLast =
          utf8 "[" ++ (utf8 ",").intercalate (x :: xs) := by
        rw [← List.append_assoc]
        nth_rewrite 2 [hcm]
        rw [List.dropLast_concat]
      simp only [Bool.false_eq_true, if_false, hlen, hd, jsonArray]
  refine ⟨by rw [key], by rw [key], by rw [key], ?_, ?_⟩
  · intro m hm
    simpa [visible] using (List.mem_filter.mp hm).2
  · intro hv
    rw [key, hv]
    rfl

/-- C7, on a ledger holding two records of `P1` and one of `P2`: `P1` is shown
its two records in index order. -/
theorem get_mortgages_lists_owned_witness :
    (get_mortgages
      (create_mortgage (create_mortgage (create_mortgage (seededStub "P1" "pl")
        (utf8 "P1") (utf8 "pl") (utf8 "M1")).stub (utf8 "P2") (utf8 "pl") (utf8 "M2")).stub
        (utf8 "P1") (utf8 "pl") (utf8 "M3")).stub (utf8 "P1") (utf8 "pl")).bytes =
      some (jsonArray [Marshal_Mortgage ⟨utf8 "M1", utf8 "UNDEFINED", utf8 "P1"⟩,
        Marshal_Mortgage ⟨utf8 "M3", utf8 "UNDEFINED", utf8 "P1"⟩]) := by
  have h := (get_mortgages_lists_owned
    (create_mortgage (create_mortgage (create_mortgage (seededStub "P1" "pl")
      (utf8 "P1") (utf8 "pl") (utf8 "M1")).stub (utf8 "P2") (utf8 "pl") (utf8 "M2")).stub
      (utf8 "P1") (utf8 "pl") (utf8 "M3")).stub (utf8 "P1") (utf8 "pl")
    ⟨some [utf8 "M1", utf8 "M2", utf8 "M3"]⟩ (by decide) (by decide) (by decide)).2.2.1
  rw [h]
  decide

/-! ## Uniqueness -/

/-- C8. The existence test of `create_mortgage` looks only at the bytes
`GetState` returned and drops its error, so on a ledger where reading `M1`
fails the first and the second creation of `M1` by `P1` both succeed and the
index lists `M1` twice; a creation of `M1` by another caller, `P2`, succeeds
as well and replaces the record of `P1` by one owned by `P2`. -/
theorem create_mortgage_twice_unreadable_id :
    (create_mortgage { seededStub "P1" "pl" with getFails := fun k => k = utf8 "M1" }
      (utf8 "P1") (utf8 "pl") (utf8 "M1")).err = none ∧
    (create_mortgage
      (create_mortgage { seededStub "P1" "pl" with getFails := fun k => k = utf8 "M1" }
        (utf8 "P1") (utf8 "pl") (utf8 "M1")).stub (utf8 "P1") (utf8 "pl") (utf8 "M1")).err =
      none ∧
    (create_mortgage
      (create_mortgage { seededStub "P1" "pl" with getFails := fun k => k = utf8 "M1" }
        (utf8 "P1") (utf8 "pl") (utf8 "M1")).stub (utf8 "P1") (utf8 "pl")
        (utf8 "M1")).stub.state (utf8 "mortIDs") =
      some (Marshal_MortID_Holder ⟨some [utf8 "M1", utf8 "M1"]⟩) ∧
    (create_mortgage { seededStub "P1" "pl" with getFails := fun k => k = utf8 "M1" }
      (utf8 "P1") (utf8 "pl") (utf8 "M1")).stub.state (utf8 "M1") =
      some (Marshal_Mortgage ⟨utf8 "M1", utf8 "UNDEFINED", utf8 "P1"⟩) ∧
    (create_mortgage
      (create_mortgage { seededStub "P1" "pl" with getFails := fun k => k = utf8 "M1" }
        (utf8 "P1") (utf8 "pl") (utf8 "M1")).stub (utf8 "P2") (utf8 "pl") (utf8 "M1")).err =
      none ∧
    (create_mortgage
      (create_mortgage { seededStub "P1" "pl" with getFails := fun k => k = utf8 "M1" }
        (utf8 "P1") (utf8 "pl") (utf8 "M1")).stub (utf8 "P2") (utf8 "pl")
        (utf8 "M1")).stub.state (utf8 "M1") =
      some (Marshal_Mortgage ⟨utf8 "M1", utf8 "UNDEFINED", utf8 "P2"⟩) := by
  decide

/-- Where the read of the record's id does not fail, a creation that follows
a successful one with the same caller and id (whatever the role) is refused
with `Mortgage already exists` and leaves the ledger exactly as the first call
left it. -/
theorem create_mortgage_again_refused (stub : Stub)
    (caller caller_affiliation mortID other : Bytes)
    (h : (create_mortgage stub caller caller_affiliation mortID).err = none)
    (hread : stub.getFails
      (Unmarshal_Mortgage (some (mortgage_json caller mortID))).1.MortID = false) :
    (create_mortgage (create_mortgage stub caller caller_affiliation mortID).stub
      caller other mortID).err = some (Err.New (utf8 "Mortgage already exists")) ∧
    (create_mortgage (create_mortgage stub caller caller_affiliation mortID).stub
      caller other mortID).stub = (create_mortgage stub caller caller_affiliation mortID).stub ∧
    (create_mortgage (create_mortgage stub caller caller_affiliation mortID).stub
      caller other mortID).bytes = none := by
  obtain ⟨h1, -, -, -, -, -, hld, -, hs⟩ := create_mortgage_success stub caller
    caller_affiliation mortID h
  have hrec : ((create_mortgage stub caller caller_affiliation mortID).stub.GetState
      (Unmarshal_Mortgage (some (mortgage_json caller mortID))).1.MortID).1 ≠ none := by
    rw [hs]
    simp only [Stub.GetState, hread]
    by_cases hk :
        (Unmarshal_Mortgage (some (mortgage_json caller mortID))).1.MortID = utf8 "mortIDs"
    · simp [hk]
    · simp [hk]
  generalize (create_mortgage stub caller caller_affiliation mortID).stub = s1 at hrec ⊢
  rw [create_mortgage_eq]
  simp [h1, hrec]

/-- The refusal of a second creation, at a concrete call: `P1` creates `M1`
twice on a ledger whose reads succeed. -/
theorem create_mortgage_again_refused_witness :
    (create_mortgage (seededStub "P1" "pl") (utf8 "P1") (utf8 "pl") (utf8 "M1")).err = none ∧
    (create_mortgage
      (create_mortgage (seededStub "P1" "pl") (utf8 "P1") (utf8 "pl") (utf8 "M1")).stub
      (utf8 "P1") (utf8 "pl") (utf8 "M1")).err =
      some (Err.New (utf8 "Mortgage already exists")) :=
  ⟨by decide,
    (create_mortgage_again_refused (seededStub "P1" "pl") (utf8 "P1") (utf8 "pl") (utf8 "M1")
      (utf8 "pl") (by decide) (by decide)).1⟩

/-- C9. The record is built by pasting id and caller into JSON text without
escaping, so a backslash in the id is read as an escape: creating the id
`a\nb` (a backslash and an `n`) succeeds, stores nothing under that id,
stores a record whose `MortID` is `a`, line feed, `b` under that other key,
and appends the id as given to the index. -/
theorem create_mortgage_backslash_id :
    (create_mortgage (seededStub "P1" "pl") (utf8 "P1") (utf8 "pl") (utf8 "a\\nb")).err = none ∧
    (create_mortgage (seededStub "P1" "pl") (utf8 "P1") (utf8 "pl") (utf8 "a\\nb")).stub.state
        (utf8 "a\\nb") = none ∧
    (create_mortgage (seededStub "P1" "pl") (utf8 "P1") (utf8 "pl") (utf8 "a\\nb")).stub.state
        (utf8 "a\nb") =
      some (Marshal_Mortgage ⟨utf8 "a\nb", utf8 "UNDEFINED", utf8 "P1"⟩) ∧
    (create_mortgage (seededStub "P1" "pl") (utf8 "P1") (utf8 "pl") (utf8 "a\\nb")).stub.state
        (utf8 "mortIDs") =
      some (Marshal_MortID_Holder ⟨some [utf8 "a\\nb"]⟩) ∧
    (get_mortgages (create_mortgage (seededStub "P1" "pl") (utf8 "P1") (utf8 "pl")
        (utf8 "a\\nb")).stub
      (utf8 "P1") (utf8 "pl")).err = some (Err.New (utf8 "Failed to retrieve Mortgage")) := by
  decide

/-- C11. The index and the records fall apart on an id with a backslash: from
the ledger holding only a valid empty index, the single successful call
`create_mortgage` of the id `a\nb` (a backslash and an `n`) leaves an index
whose only entry is that id, and that id is not retrievable: no entry exists
under it and `retrieve_mortgage` fails. -/
theorem index_entry_not_retrievable :
    (seededStub "P1" "pl").state (utf8 "mortIDs") = some (Marshal_MortID_Holder ⟨some []⟩) ∧
    (create_mortgage (seededStub "P1" "pl") (utf8 "P1") (utf8 "pl") (utf8 "a\\nb")).err = none ∧
    Unmarshal_MortID_Holder
        ((create_mortgage (seededStub "P1" "pl") (utf8 "P1") (utf8 "pl") (utf8 "a\\nb")).stub.state
            (utf8 "mortIDs")) =
      (⟨some [utf8 "a\\nb"]⟩, false) ∧
    (create_mortgage (seededStub "P1" "pl") (utf8 "P1") (utf8 "pl") (utf8 "a\\nb")).stub.state
        (utf8 "a\\nb") = none ∧
    (retrieve_mortgage (create_mortgage (seededStub "P1" "pl") (utf8 "P1") (utf8 "pl")
        (utf8 "a\\nb")).stub
        (utf8 "a\\nb")).2 = some (Err.New (utf8 "RETRIEVE_MORTGAGE: Corrupt mortgage record")) ∧
    (retrieve_mortgage (create_mortgage (seededStub "P1" "pl") (utf8 "P1") (utf8 "pl")
        (utf8 "a\\nb")).stub
        (utf8 "a\nb")).1 = ⟨utf8 "a\nb", utf8 "UNDEFINED", utf8 "P1"⟩ := by
  decide

/-- C13, as stated, fails: a successful transfer of a record whose `MortID`
is `mortIDs` changes the entry under that key, which is the index. -/
theorem pl_to_sl_changes_index_entry :
    (seededStub "P1" "pl").state (utf8 "mortIDs") = some (utf8 "\x7b\"mortIDs\":[]\x7d") ∧
    (pl_to_sl (seededStub "P1" "pl") ⟨utf8 "mortIDs", utf8 "UNDEFINED", utf8 "P1"⟩ (utf8 "P1")
        (utf8 "pl") (utf8 "S1") (utf8 "sl")).err =
      none ∧
    (pl_to_sl (seededStub "P1" "pl") ⟨utf8 "mortIDs", utf8 "UNDEFINED", utf8 "P1"⟩ (utf8 "P1")
        (utf8 "pl") (utf8 "S1")
      (utf8 "sl")).stub.state (utf8 "mortIDs") = some
          (Marshal_Mortgage ⟨utf8 "mortIDs", utf8 "UNDEFINED", utf8 "S1"⟩) ∧
    (pl_to_sl (seededStub "P1" "pl") ⟨utf8 "mortIDs", utf8 "UNDEFINED", utf8 "P1"⟩ (utf8 "P1")
        (utf8 "pl") (utf8 "S1")
      (utf8 "sl")).stub.state (utf8 "mortIDs") ≠ (seededStub "P1" "pl").state (utf8 "mortIDs") := by
  decide

/-- C13, amended. A failing `pl_to_sl` (permission denied or failed write)
leaves the ledger as it was.  A successful one changes no entry other than
the one under `m.MortID`: every other record is unchanged, and the index is
unchanged unless `m.MortID` is the index key `mortIDs`. -/
theorem pl_to_sl_frame (stub : Stub) (m : Mortgage)
    (caller caller_affiliation recipient_name recipient_affiliation : Bytes) :
    ((pl_to_sl stub m caller caller_affiliation recipient_name recipient_affiliation).err ≠ none →
      (pl_to_sl stub m caller caller_affiliation recipient_name recipient_affiliation).stub =
        stub) ∧
    (∀ k : Bytes, k ≠ m.MortID →
      (pl_to_sl stub m caller caller_affiliation recipient_name
        recipient_affiliation).stub.state k = stub.state k) ∧
    (m.MortID ≠ utf8 "mortIDs" →
      (pl_to_sl stub m caller caller_affiliation recipient_name
        recipient_affiliation).stub.state (utf8 "mortIDs") = stub.state (utf8 "mortIDs")) := by
  have frame : ∀ k : Bytes, k ≠ m.MortID →
      (pl_to_sl stub m caller caller_affiliation recipient_name
        recipient_affiliation).stub.state k = stub.state k := by
    intro k hk
    unfold pl_to_sl save_changes Stub.PutState
    dsimp only
    split_ifs <;> simp [hk]
  refine ⟨?_, frame, fun hm => frame (utf8 "mortIDs") (fun e => hm e.symm)⟩
  intro he
  by_cases hc : m.Owner = caller ∧ caller_affiliation = PRIMARY_LENDER ∧
      recipient_affiliation = SECONDARY_LENDER
  · by_cases hp : stub.putFails m.MortID = true
    · simp [pl_to_sl, hc, save_changes, Stub.PutState, hp]
    · exfalso
      apply he
      simp [pl_to_sl, hc, save_changes, Stub.PutState, hp]
  · simp [pl_to_sl, hc]

/-- C13 amended, at concrete transfers: a refused transfer leaves the ledger,
and a successful transfer of `M1` leaves the index entry. -/
theorem pl_to_sl_frame_witness :
    (pl_to_sl (seededStub "P1" "pl") ⟨utf8 "M1", utf8 "UNDEFINED", utf8 "P1"⟩ (utf8 "P2")
        (utf8 "pl") (utf8 "S1") (utf8 "sl")).stub =
      seededStub "P1" "pl" ∧
    (pl_to_sl (seededStub "P1" "pl") ⟨utf8 "M1", utf8 "UNDEFINED", utf8 "P1"⟩ (utf8 "P1")
        (utf8 "pl") (utf8 "S1")
      (utf8 "sl")).stub.state (utf8 "mortIDs") = (seededStub "P1" "pl").state (utf8 "mortIDs") :=
  ⟨(pl_to_sl_frame (seededStub "P1" "pl") ⟨utf8 "M1", utf8 "UNDEFINED", utf8 "P1"⟩ (utf8 "P2")
      (utf8 "pl") (utf8 "S1") (utf8 "sl")).1
      (by decide),
    (pl_to_sl_frame (seededStub "P1" "pl") ⟨utf8 "M1", utf8 "UNDEFINED", utf8 "P1"⟩ (utf8 "P1")
        (utf8 "pl") (utf8 "S1") (utf8 "sl")).2.2
      (by decide)⟩

/-! ## Listing with a bad entry -/

theorem get_mortgages_loop_fails (stub : Stub) (caller caller_affiliation : Bytes)
    (ids : List Bytes) (result : Bytes)
    (h : ∃ id ∈ ids, (retrieve_mortgage stub id).2 ≠ none) :
    get_mortgages_loop stub caller caller_affiliation ids result = none := by
  induction ids generalizing result with
  | nil => simp at h
  | cons x rest ih =>
    by_cases hx : (retrieve_mortgage stub x).2 = none
    · have hrest : ∃ id ∈ rest, (retrieve_mortgage stub id).2 ≠ none := by
        obtain ⟨id, hid, hne⟩ := h
        rcases List.mem_cons.mp hid with e | e
        · exact absurd (e ▸ hx) hne
        · exact ⟨id, e, hne⟩
      simp only [get_mortgages_loop, hx, ne_eq, not_true_eq_false, if_false]
      split_ifs
      · exact ih _ hrest
      · exact ih _ hrest
    · simp [get_mortgages_loop, hx]

/-- C14. When the index at `"mortIDs"` is readable and parses, and at least
one listed id cannot be retrieved (no entry, bytes that do not parse, or a
failing read), `get_mortgages` fails with `Failed to retrieve Mortgage`,
returns no bytes and leaves the ledger as it was, wherever the bad id sits and
whoever the caller is. -/
theorem get_mortgages_aborts_on_bad_entry (stub : Stub) (caller caller_affiliation : Bytes)
    (h : MortID_Holder) (hg : stub.getFails (utf8 "mortIDs") = false)
    (hi : Unmarshal_MortID_Holder (stub.state (utf8 "mortIDs")) = (h, false))
    (hbad : ∃ id ∈ h.ids, (retrieve_mortgage stub id).2 ≠ none) :
    (get_mortgages stub caller caller_affiliation).err =
      some (Err.New (utf8 "Failed to retrieve Mortgage")) ∧
    (get_mortgages stub caller caller_affiliation).bytes = none ∧
    (get_mortgages stub caller caller_affiliation).stub = stub := by
  have hG : stub.GetState (utf8 "mortIDs") = (stub.state (utf8 "mortIDs"), false) := by
    simp [Stub.GetState, hg]
  have hloop := get_mortgages_loop_fails stub caller caller_affiliation h.ids (utf8 "[") hbad
  unfold get_mortgages
  simp only [hG, hi, hloop]
  simp

/-- C14, on a ledger whose index lists `M1`, a dangling `M2` and `M3`: the
listing is refused for the owner of `M1` and `M3`. -/
theorem get_mortgages_aborts_on_bad_entry_witness :
    (get_mortgages
      ((create_mortgage (create_mortgage (seededStub "P1" "pl") (utf8 "P1") (utf8 "pl")
          (utf8 "M1")).stub
        (utf8 "P1") (utf8 "pl") (utf8 "M3")).stub.PutState (utf8 "mortIDs")
          (Marshal_MortID_Holder ⟨some [utf8 "M1", utf8 "M2", utf8 "M3"]⟩)).1 (utf8 "P1")
              (utf8 "pl")).err =
      some (Err.New (utf8 "Failed to retrieve Mortgage")) :=
  (get_mortgages_aborts_on_bad_entry
    ((create_mortgage (create_mortgage (seededStub "P1" "pl") (utf8 "P1") (utf8 "pl")
        (utf8 "M1")).stub
      (utf8 "P1") (utf8 "pl") (utf8 "M3")).stub.PutState (utf8 "mortIDs")
        (Marshal_MortID_Holder ⟨some [utf8 "M1", utf8 "M2", utf8 "M3"]⟩)).1 (utf8 "P1") (utf8 "pl")
    ⟨some [utf8 "M1", utf8 "M2", utf8 "M3"]⟩ (by decide) (by decide)
    ⟨utf8 "M2", by decide, by decide⟩).1

/-! ## Dispatch -/

/-- C15, as stated, fails for `Invoke`: a function name it does not know is
treated as an operation on a mortgage, which is retrieved from the second
argument first, so with a second argument that names no mortgage the error is
`Error retrieving mortgage`, without the function name. -/
theorem Invoke_unknown_function_retrieves_first :
    (Invoke (seededStub "P1" "pl") (utf8 "no_such_function") [utf8 "S1", utf8 "M404"]).map
        (fun r => r.err) =
      some (some (Err.New (utf8 "Error retrieving mortgage"))) := by
  decide

/-- C15, amended. When the caller's identity resolves: `Query` answers every
function name outside its surface with `Received unknown function invocation`
followed by the name, for every argument list; `Invoke` answers every name
other than `create_mortgage`, `ping` and `pl_to_sl`, given at least two
arguments, with `Function of the name`, the name, `doesn't exist.` when the
second argument names a retrievable mortgage, and with
`Error retrieving mortgage` when it does not.  Neither changes the ledger. -/
theorem unknown_function_errors (stub : Stub) (function : Bytes) (args : List Bytes)
    (hc : (get_caller_data stub).2.2 = none) :
    (function ≠ utf8 "get_mortgage_details" → function ≠ utf8 "check_unique_mortgage" →
      function ≠ utf8 "get_mortgages" → function ≠ utf8 "get_ecert" → function ≠ utf8 "ping" →
      Query stub function args =
        some ⟨stub, none, some (Err.New (utf8 "Received unknown function invocation " ++
            function))⟩) ∧
    (function ≠ utf8 "create_mortgage" → function ≠ utf8 "ping" → function ≠ utf8 "pl_to_sl" →
      ∀ (a0 a1 : Bytes) (rest : List Bytes),
        ((retrieve_mortgage stub a1).2 = none →
          Invoke stub function (a0 :: a1 :: rest) =
            some ⟨stub, none,
              some (Err.New (utf8 "Function of the name " ++ function ++ utf8 " doesn't exist."))⟩) ∧
        ((retrieve_mortgage stub a1).2 ≠ none →
          Invoke stub function (a0 :: a1 :: rest) =
            some ⟨stub, none, some (Err.New (utf8 "Error retrieving mortgage"))⟩)) := by
  refine ⟨?_, ?_⟩
  · intro h1 h2 h3 h4 h5
    unfold Query
    simp only [hc, h1, h2, h3, h4, h5, if_false]
  · intro h1 h2 h3 a0 a1 rest
    refine ⟨?_, ?_⟩
    · intro hr
      unfold Invoke
      simp [hc, h1, h2, h3, hr]
    · intro hr
      unfold Invoke
      simp [hc, h1, h2, h3, hr]

/-- C15 amended, at the name `no_such_function`. -/
theorem unknown_function_errors_witness :
    (get_caller_data (seededStub "P1" "pl")).2.2 = none ∧
    Query (seededStub "P1" "pl") (utf8 "no_such_function") [] =
      some ⟨seededStub "P1" "pl", none,
        some (Err.New (utf8 "Received unknown function invocation " ++ utf8 "no_such_function"))⟩ :=
  ⟨by decide,
    (unknown_function_errors (seededStub "P1" "pl") (utf8 "no_such_function") [] (by decide)).1
      (by decide) (by decide) (by decide) (by decide) (by decide)⟩

/-! ## Retrieval -/

/-- C16, as stated, fails: for an id with no entry `retrieve_mortgage` returns
the `Corrupt mortgage record` error, the very error it returns for an entry
holding empty bytes, and of the same kind as the one for an entry holding
bytes that are no JSON. -/
theorem retrieve_mortgage_absent_is_corrupt :
    (emptyStub "P1" "pl").state (utf8 "M1") = none ∧
    (retrieve_mortgage (emptyStub "P1" "pl") (utf8 "M1")).2 =
      some (Err.New (utf8 "RETRIEVE_MORTGAGE: Corrupt mortgage record")) ∧
    (retrieve_mortgage ((emptyStub "P1" "pl").PutState (utf8 "M1") (utf8 "")).1 (utf8 "M1")).2 =
      (retrieve_mortgage (emptyStub "P1" "pl") (utf8 "M1")).2 ∧
    (retrieve_mortgage ((emptyStub "P1" "pl").PutState (utf8 "M1") (utf8 "garbage")).1
        (utf8 "M1")).2 =
      some (Err.New (utf8 "RETRIEVE_MORTGAGE: Corrupt mortgage recordgarbage")) := by
  decide

/-- C16, amended. On a ledger that does not fail to read the id,
`retrieve_mortgage` fails with the one error `RETRIEVE_MORTGAGE: Corrupt
mortgage record` followed by the stored bytes, both when no entry exists
(no bytes follow) and when the entry does not parse as a `Mortgage`; the
distinct error `RETRIEVE_MORTGAGE: Error retrieving mortgage with mortID =`
followed by the id is returned exactly when the read itself fails. -/
theorem retrieve_mortgage_errors (stub : Stub) (mortID : Bytes) :
    (stub.getFails mortID = false → stub.state mortID = none →
      (retrieve_mortgage stub mortID).2 =
        some (Err.New (utf8 "RETRIEVE_MORTGAGE: Corrupt mortgage record"))) ∧
    (stub.getFails mortID = false → ∀ bytes : Bytes, stub.state mortID = some bytes →
      (Unmarshal_Mortgage (some bytes)).2 = true →
      (retrieve_mortgage stub mortID).2 =
        some (Err.New (utf8 "RETRIEVE_MORTGAGE: Corrupt mortgage record" ++ bytes))) ∧
    (stub.getFails mortID = true ↔
      (retrieve_mortgage stub mortID).2 =
        some (Err.New (utf8 "RETRIEVE_MORTGAGE: Error retrieving mortgage with mortID = " ++
          mortID))) := by
  have hnone : Unmarshal_Mortgage none = (Mortgage.zero, true) := by decide
  refine ⟨?_, ?_, ?_⟩
  · intro hg hs
    simp [retrieve_mortgage, Stub.GetState, hg, hs, hnone]
  · intro hg bytes hs hu
    simp [retrieve_mortgage, Stub.GetState, hg, hs, hu]
  · constructor
    · intro hg
      simp [retrieve_mortgage, Stub.GetState, hg]
    · intro he
      by_contra hg
      have hg' : stub.getFails mortID = false := by simpa using hg
      have hne : utf8 "RETRIEVE_MORTGAGE: Corrupt mortgage record" ++
            (stub.state mortID).getD [] ≠
          utf8 "RETRIEVE_MORTGAGE: Error retrieving mortgage with mortID = " ++ mortID := by
        intro h
        have hd := congrArg (fun l => l.get? 19) h
        have e1 : (utf8 "RETRIEVE_MORTGAGE: Corrupt mortgage record" ++
            (stub.state mortID).getD []).get? 19 = some 67 := rfl
        have e2 : (utf8 "RETRIEVE_MORTGAGE: Error retrieving mortgage with mortID = " ++
            mortID).get? 19 = some 69 := rfl
        simp only [e1, e2] at hd
        exact absurd hd (by decide)
      unfold retrieve_mortgage at he
      simp only [Stub.GetState, hg', Bool.false_eq_true, if_false] at he
      split_ifs at he
      simp only [Option.some.injEq, Err.New.injEq] at he
      exact hne he

/-- C16 amended, at the id `M1` with no entry on the empty ledger. -/
theorem retrieve_mortgage_errors_witness :
    (emptyStub "P1" "pl").getFails (utf8 "M1") = false ∧ (emptyStub "P1" "pl").state (utf8 "M1") =
        none ∧
    (retrieve_mortgage (emptyStub "P1" "pl") (utf8 "M1")).2 =
      some (Err.New (utf8 "RETRIEVE_MORTGAGE: Corrupt mortgage record")) :=
  ⟨rfl, rfl, (retrieve_mortgage_errors (emptyStub "P1" "pl") (utf8 "M1")).1 rfl rfl⟩

/-! ## Bootstrap -/

/-- C17. `Init` does not look at the error of the write of the holder and
reads `args[i+1]` without a test of the length: when the write under
`MortIDs` fails it still returns success, with no holder stored, and with an
odd number of arguments it panics instead of returning.  With an even number
and succeeding writes it returns success with each credential stored. -/
theorem Init_ignores_failed_write :
    (Init { emptyStub "P1" "pl" with putFails := fun k => k = utf8 "MortIDs" } (utf8 "init") []).map
      (fun r => (r.bytes, r.err)) = some (none, none) ∧
    (Init { emptyStub "P1" "pl" with putFails := fun k => k = utf8 "MortIDs" } (utf8 "init") []).map
      (fun r => r.stub.state (utf8 "MortIDs")) = some none ∧
    (Init (emptyStub "P1" "pl") (utf8 "init") [utf8 "alice"]).isNone = true ∧
    (Init (emptyStub "P1" "pl") (utf8 "init") [utf8 "alice", utf8 "cert-a", utf8 "bob"]).isNone =
        true ∧
    (Init (emptyStub "P1" "pl") (utf8 "init") [utf8 "alice", utf8 "cert-a", utf8 "bob",
        utf8 "cert-b"]).map
      (fun r => (r.err, r.stub.state (utf8 "alice"), r.stub.state (utf8 "bob"))) =
      some (none, some (utf8 "cert-a"), some (utf8 "cert-b")) := by
  decide

/-! ## Round trip -/

/-- C18, as stated, fails twice.  On a ledger that stores the record but fails
to read it back, `save_changes` succeeds and `retrieve_mortgage` returns the
error `Error retrieving mortgage`.  And a string is persisted as JSON text,
which cannot hold a byte that is no well-formed UTF-8: the record whose
`Lendee` is the three bytes `a`, 0xFF, `b` is saved and retrieved without
error, and the record returned has the `Lendee` `a`, U+FFFD, `b`. -/
theorem save_then_retrieve_unreadable :
    ({ emptyStub "P1" "pl" with getFails := fun k => k = utf8 "M1" } : Stub).putFails
      (utf8 "M1") = false ∧
    (save_changes { emptyStub "P1" "pl" with getFails := fun k => k = utf8 "M1" }
      ⟨utf8 "M1", utf8 "UNDEFINED", utf8 "P1"⟩).2.2 = none ∧
    (retrieve_mortgage
      (save_changes { emptyStub "P1" "pl" with getFails := fun k => k = utf8 "M1" }
        ⟨utf8 "M1", utf8 "UNDEFINED", utf8 "P1"⟩).1 (utf8 "M1")).2 =
      some (Err.New (utf8 "RETRIEVE_MORTGAGE: Error retrieving mortgage with mortID = M1")) ∧
    (save_changes (emptyStub "P1" "pl") ⟨utf8 "M1", [0x61, 0xff, 0x62], utf8 "P1"⟩).2.2 = none ∧
    retrieve_mortgage
        (save_changes (emptyStub "P1" "pl") ⟨utf8 "M1", [0x61, 0xff, 0x62], utf8 "P1"⟩).1
        (utf8 "M1") =
      (⟨utf8 "M1", [0x61, 0xef, 0xbf, 0xbd, 0x62], utf8 "P1"⟩, none) ∧
    (⟨utf8 "M1", [0x61, 0xef, 0xbf, 0xbd, 0x62], utf8 "P1"⟩ : Mortgage) ≠
      ⟨utf8 "M1", [0x61, 0xff, 0x62], utf8 "P1"⟩ := by
  decide

/-- C18, amended. For every record `m` whose three strings are valid UTF-8,
whatever characters they hold, on a ledger whose write and read of the entry
under `m.MortID` succeed: `save_changes` succeeds and `retrieve_mortgage` of
`m.MortID` then succeeds and returns `m` itself. -/
theorem save_then_retrieve (stub : Stub) (m : Mortgage)
    (h1 : validUTF8 m.MortID = true) (h2 : validUTF8 m.Lendee = true)
    (h3 : validUTF8 m.Owner = true)
    (hw : stub.putFails m.MortID = false) (hr : stub.getFails m.MortID = false) :
    (save_changes stub m).2.1 = true ∧
    (save_changes stub m).2.2 = none ∧
    retrieve_mortgage (save_changes stub m).1 m.MortID = (m, none) := by
  rw [save_changes_ok stub m hw]
  refine ⟨rfl, rfl, ?_⟩
  simp [retrieve_mortgage, Stub.GetState, hr, Unmarshal_Marshal_Mortgage m h1 h2 h3]

/-- C18 amended, at a record whose strings need escaping and hold characters
of two and three bytes. -/
theorem save_then_retrieve_witness :
    validUTF8 (utf8 "M\"1\\\u00e9") = true ∧ validUTF8 (utf8 "a\nb<c>\u20ac") = true ∧
    validUTF8 (utf8 "P&1") = true ∧
    (emptyStub "P1" "pl").putFails (utf8 "M\"1\\\u00e9") = false ∧
    (emptyStub "P1" "pl").getFails (utf8 "M\"1\\\u00e9") = false ∧
    retrieve_mortgage
        (save_changes (emptyStub "P1" "pl")
          ⟨utf8 "M\"1\\\u00e9", utf8 "a\nb<c>\u20ac", utf8 "P&1"⟩).1 (utf8 "M\"1\\\u00e9") =
      (⟨utf8 "M\"1\\\u00e9", utf8 "a\nb<c>\u20ac", utf8 "P&1"⟩, none) :=
  ⟨by decide, by decide, by decide, rfl, rfl,
    (save_then_retrieve (emptyStub "P1" "pl") ⟨utf8 "M\"1\\\u00e9", utf8 "a\nb<c>\u20ac",
        utf8 "P&1"⟩
      (by decide) (by decide) (by decide) rfl rfl).2.2⟩

/-! ## Existence -/

/-- C19. The two existence tests differ on an entry that is not JSON:
`check_unique_mortgage` parses the entry and answers `true` when that fails,
`create_mortgage` only asks whether bytes are there.  On the ledger `Init`
seeds with the credential `cert-a` for `alice`, the id `alice` is reported
unique and its creation is refused with `Mortgage already exists`. -/
theorem check_unique_disagrees_with_create :
    (Init (emptyStub "P1" "pl") (utf8 "init") [utf8 "alice", utf8 "cert-a"]).map
      (fun r => r.stub.state (utf8 "alice")) = some (some (utf8 "cert-a")) ∧
    (Init (emptyStub "P1" "pl") (utf8 "init") [utf8 "alice", utf8 "cert-a"]).map
      (fun r => ((check_unique_mortgage r.stub (utf8 "alice") (utf8 "P1") (utf8 "pl")).bytes,
        (check_unique_mortgage r.stub (utf8 "alice") (utf8 "P1") (utf8 "pl")).err)) =
            some (some (utf8 "true"), none) ∧
    (Init (emptyStub "P1" "pl") (utf8 "init") [utf8 "alice", utf8 "cert-a"]).map
      (fun r => (create_mortgage r.stub (utf8 "P1") (utf8 "pl") (utf8 "alice")).err) =
      some (some (Err.New (utf8 "Mortgage already exists"))) := by
  decide

/-! ## Argument access -/

/-- C20. `Invoke` and `Query` index `args` without testing its length (only
the `get_mortgage_details` branch of `Query` tests it): with too few
arguments the access is out of range and the call panics instead of
returning a result or an error. -/
theorem Invoke_Query_short_args_panic :
    (Invoke (seededStub "P1" "pl") (utf8 "create_mortgage") []).isNone = true ∧
    (Invoke (seededStub "P1" "pl") (utf8 "pl_to_sl") []).isNone = true ∧
    (Invoke (seededStub "P1" "pl") (utf8 "pl_to_sl") [utf8 "S1"]).isNone = true ∧
    (Invoke (seededStub "P1" "pl") (utf8 "no_such_function") []).isNone = true ∧
    (Query (seededStub "P1" "pl") (utf8 "check_unique_mortgage") []).isNone = true ∧
    (Query (seededStub "P1" "pl") (utf8 "get_ecert") []).isNone = true ∧
    (Query (seededStub "P1" "pl") (utf8 "get_mortgage_details") []).map (fun r => r.err) =
      some (some (Err.New (utf8 "QUERY: Incorrect number of arguments passed"))) := by
  decide

end Semorket
